import Mathlib

/-! The batching syslog hook of k6 (`cmd/syslog.go`).

A shallow embedding of `syslogHook` (its accumulator `loop`, `push`, `Fire` and
`msgFromEntry`) together with the properties of its batching protocol.

Conventions of the embedding:

* Go `int` values (`limit`, `count`, `dropped`) are unbounded integers: a 64-bit counter
  cannot wrap within a run, since every increment consumes one received record.
* A `*logrus.Entry` is `Option Entry`; `none` is the nil pointer that `make` puts in a slot.
* What the libraries outside the repository do (the RFC 5424 serialiser, the network
  connection, the printing of a `time.Duration`) is supplied through `Env`.
* A Go run-time panic (index out of range, nil dereference) is an explicit outcome.
* `loop` is embedded twice: as the sequence of rounds of its `select` (`step`, `run`,
  `round`), and as the steps of its two goroutines with the two arrays named (`sysStep`),
  where the exchange of the slots, the start and the end of a push are steps of their own.
-/

set_option linter.dupNamespace false
set_option maxRecDepth 8000

namespace Syslog

/-! ## Data model -/

/-- A non-nil Go `error`, represented by its text (`nil` is `none : Option Error`). -/
abbrev Error := String

/-- A byte string (`[]byte`). -/
abbrev Bytes := List Nat

/-- The error `io.ErrShortWrite` of the Go standard library. -/
def ErrShortWrite : Error := "short write"

/-- The type `logrus.Level`, an unsigned 32-bit number. -/
structure Level where
  n : Nat
deriving DecidableEq, Repr

/-- Constant `logrus.PanicLevel`. -/
def PanicLevel : Level := ⟨0⟩
/-- Constant `logrus.FatalLevel`. -/
def FatalLevel : Level := ⟨1⟩
/-- Constant `logrus.ErrorLevel`. -/
def ErrorLevel : Level := ⟨2⟩
/-- Constant `logrus.WarnLevel`. -/
def WarnLevel : Level := ⟨3⟩
/-- Constant `logrus.InfoLevel`. -/
def InfoLevel : Level := ⟨4⟩
/-- Constant `logrus.DebugLevel`. -/
def DebugLevel : Level := ⟨5⟩
/-- Constant `logrus.TraceLevel`. -/
def TraceLevel : Level := ⟨6⟩

/-- The method `logrus.Level.String`: the name of the level, `"unknown"` for a number that
is no level. -/
def Level.String (level : Level) : String :=
  match level.n with
  | 0 => "panic"
  | 1 => "fatal"
  | 2 => "error"
  | 3 => "warning"
  | 4 => "info"
  | 5 => "debug"
  | 6 => "trace"
  | _ => "unknown"

/-- A value of type `interface{}` stored in `logrus.Fields`. The hook only ever prints such
a value with `fmt.Sprint`, so a value that is neither an `int` nor a `string` is represented
by what `fmt.Sprint` prints for it. -/
inductive Value where
  | int (n : Int)
  | str (s : String)
  | other (printed : String)
deriving DecidableEq, Repr

/-- The function `fmt.Sprint` on one value. -/
def Sprint : Value → String
  | .int n => toString n
  | .str s => s
  | .other printed => printed

/-- The fields of `logrus.Entry` the hook reads. `Data` is the map `logrus.Fields`, listed
in the order in which the `range` statement of `msgFromEntry` visits it. Go leaves that
order unspecified and it may change from one traversal of a map to the next, so two listings
that are permutations of each other stand for the same map (see `SameRecord`).
`Time` is an instant, `0` being the zero `time.Time`. -/
structure Entry where
  Data : List (String × Value)
  Time : Int
  Level : Level
  Message : String
deriving DecidableEq, Repr

/-- Two entries denote the same record: they agree on time, level and message and their
field maps have the same content (the listings are permutations of each other). -/
def SameRecord (e₁ e₂ : Entry) : Prop :=
  e₁.Time = e₂.Time ∧ e₁.Level = e₂.Level ∧ e₁.Message = e₂.Message ∧ e₁.Data.Perm e₂.Data

/-- The type `rfc5424.SDParam`. -/
structure SDParam where
  Name : String
  Value : String
deriving DecidableEq, Repr

/-- The type `rfc5424.StructuredData`. -/
structure StructuredData where
  ID : String
  Parameters : List SDParam
deriving DecidableEq, Repr

/-- The type `rfc5424.Message`; `Message` holds the bytes of a Go string and is kept as that
string. The fields `msgFromEntry` does not set have their zero value. -/
structure Message where
  Priority : Nat
  Timestamp : Int
  Hostname : String
  AppName : String
  ProcessID : String
  MessageID : String
  StructuredData : List StructuredData
  Message : String
deriving DecidableEq, Repr

/-- Constant `rfc5424.Daemon`, the facility 3 in the facility bits of a priority. -/
def Daemon : Nat := 3 <<< 3

/-- Constant `rfc5424.Info`, the severity 6. -/
def Info : Nat := 6

/-- What lies outside the repository.
* `WriteTo m` is `rfc5424.Message.WriteTo` applied to `m` and the buffer `b`: the bytes it
  appends to the buffer and the error it returns (writing to a `bytes.Buffer` never fails,
  so an error comes from the serialiser itself).
* `Write earlier p` is `net.Conn.Write` on the connection `hook.Writer`, which has already
  been asked to write `earlier`: the number of bytes it reports written and its error.
* `DurationString d` is `time.Duration.String`, used by the verb `%s`. -/
structure Env where
  WriteTo : Message → Bytes × Option Error
  Write : List Bytes → Bytes → Nat × Option Error
  DurationString : Int → String

/-- The configuration fields of `syslogHook`. The connection `Writer` is part of `World`,
the channel `ch` is a `Chan`. -/
structure syslogHook where
  SyslogNetwork : String
  SyslogRaddr : String
  additionalParams : List (String × String)
  limit : Int
  pushPeriod : Int
deriving DecidableEq, Repr

/-- What `push` reads and writes: the package-level buffer `b` (its unread bytes) and the
calls of `Write` that the connection `hook.Writer` has received, oldest first. -/
structure World where
  b : Bytes
  written : List Bytes
deriving DecidableEq, Repr

/-- How a call ends: it returns an error value (`none` is `nil`) in a new state, or the
goroutine panics. -/
inductive Outcome (σ : Type) where
  | returned (err : Option Error) (st : σ)
  | panicked
deriving DecidableEq, Repr

/-! ## `msgFromEntry` -/

/-- Function `msgFromEntry`: `sdParams` starts as the one-element slice holding the level
and grows by one `append` per field of `entry.Data` and per static parameter. -/
def msgFromEntry (entry : Entry) (additionalParams : List (String × String)) : Message :=
  let sdParams : List SDParam := [⟨"level", entry.Level.String⟩]
  let sdParams := entry.Data.foldl (fun acc nv => acc ++ [⟨nv.1, Sprint nv.2⟩]) sdParams
  let sdParams := additionalParams.foldl (fun acc param => acc ++ [⟨param.1, param.2⟩]) sdParams
  { Priority := Daemon ||| Info
    Timestamp := entry.Time
    Hostname := ""
    AppName := ""
    ProcessID := ""
    MessageID := ""
    StructuredData := [⟨"k6", sdParams⟩]
    Message := entry.Message }

/-! ## `push` -/

/-- Method `bytes.Buffer.Reset` on the package-level buffer. -/
def bufferReset (w : World) : World :=
  { w with b := [] }

/-- Method `bytes.Buffer.WriteTo` of the Go standard library on the package-level buffer,
with the connection as destination: a non-empty buffer is passed to `Write` in one call, the
bytes reported written are consumed, an error of `Write` is returned, a short count is
`io.ErrShortWrite`, a count above the length panics; the buffer is reset once it is drained.
An empty buffer is reset and `nil` is returned without any call of `Write`. -/
def bufferWriteTo (env : Env) (w : World) : Outcome World :=
  if 0 < w.b.length then
    let r := env.Write w.written w.b
    if w.b.length < r.1 then .panicked
    else
      let w₁ : World := { b := w.b.drop r.1, written := w.written ++ [w.b] }
      match r.2 with
      | some e => .returned (some e) w₁
      | none =>
        if r.1 ≠ w.b.length then .returned (some ErrShortWrite) w₁
        else .returned none (bufferReset w₁)
  else .returned none (bufferReset w)

/-- The record `push` synthesises when `dropped != 0`. -/
def overflowEntry (env : Env) (hook : syslogHook) (dropped : Int) : Entry :=
  { Data := [("droppedCount", .int dropped)]
    Time := 0
    Level := WarnLevel
    Message := "k6 dropped some packages because they were above the limit of "
      ++ toString hook.limit ++ "/" ++ env.DurationString hook.pushPeriod }

/-- One `WriteTo(&b)`: the serialiser appends its bytes to the buffer. -/
def writeMsg (env : Env) (m : Message) (w : World) : Option Error × World :=
  ((env.WriteTo m).2, { w with b := w.b ++ (env.WriteTo m).1 })

/-- The `for _, entry := range entrys` loop of `push`: it stops at the first error;
`msgFromEntry` dereferences `entry`, so a nil entry panics. -/
def pushEntries (env : Env) (additionalParams : List (String × String)) :
    List (Option Entry) → World → Outcome World
  | [], w => .returned none w
  | none :: _, _ => .panicked
  | some entry :: rest, w =>
    match writeMsg env (msgFromEntry entry additionalParams) w with
    | (some e, w₁) => .returned (some e) w₁
    | (none, w₁) => pushEntries env additionalParams rest w₁

/-- Method `syslogHook.push`. -/
def push (env : Env) (hook : syslogHook) (entrys : List (Option Entry)) (dropped : Int)
    (w : World) : Outcome World :=
  match pushEntries env hook.additionalParams entrys (bufferReset w) with
  | .panicked => .panicked
  | .returned (some e) w₁ => .returned (some e) w₁
  | .returned none w₁ =>
    if dropped ≠ 0 then
      match writeMsg env (msgFromEntry (overflowEntry env hook dropped) hook.additionalParams) w₁ with
      | (some e, w₂) => .returned (some e) w₂
      | (none, w₂) => bufferWriteTo env w₂
    else bufferWriteTo env w₁

/-! ## The accumulator `loop` -/

/-- The variables of `loop` that its push goroutine shares: the two slots, the drop counter
and the record count. -/
structure LoopState where
  entrys : List (Option Entry)
  entriesBeingPushed : List (Option Entry)
  dropped : Int
  count : Int
deriving DecidableEq, Repr

/-- What one round of the `select` of `loop` receives: a record from `hook.ch`, or a tick
of the ticker. -/
inductive Event where
  | entry (e : Entry)
  | tick
deriving DecidableEq, Repr

/-- The arguments of one call `hook.push(entriesBeingPushed[:oldCount], oldDropped)`. -/
structure PushCall where
  entrys : List (Option Entry)
  dropped : Int
deriving DecidableEq, Repr

/-- The `var` block of `loop`: two slices of `hook.limit` nil pointers and two zero
counters; `make` panics for a negative length. -/
def loopInit (hook : syslogHook) : Option LoopState :=
  if hook.limit < 0 then none
  else some
    { entrys := List.replicate hook.limit.toNat none
      entriesBeingPushed := List.replicate hook.limit.toNat none
      dropped := 0
      count := 0 }

/-- The case `entry, ok := <-hook.ch` of `loop` for a received record (`ok` true): a full
slot counts a drop, otherwise the record is stored at index `count`; the store panics when
the index is out of range. -/
def onEntry (hook : syslogHook) (s : LoopState) (entry : Entry) : Option LoopState :=
  if s.count = hook.limit then some { s with dropped := s.dropped + 1 }
  else if 0 ≤ s.count ∧ s.count < s.entrys.length then
    some { s with entrys := s.entrys.set s.count.toNat (some entry), count := s.count + 1 }
  else none

/-- The case `<-ticker.C` of `loop` up to the call of `push`: the push goroutine exchanges
the two slots, takes the old count and drop counter, zeroes both, releases the accumulator
and calls `push` on `entriesBeingPushed[:oldCount]`; the slice expression panics when
`oldCount` is out of range. The accumulator writes only the other slot until the next
exchange, and that exchange waits for this `push` to return. -/
def onTick (s : LoopState) : Option (LoopState × PushCall) :=
  let entriesBeingPushed := s.entrys
  let entrys := s.entriesBeingPushed
  let oldCount := s.count
  let oldDropped := s.dropped
  if 0 ≤ oldCount ∧ oldCount ≤ entriesBeingPushed.length then
    some ({ entrys := entrys, entriesBeingPushed := entriesBeingPushed, dropped := 0, count := 0 },
      { entrys := entriesBeingPushed.take oldCount.toNat, dropped := oldDropped })
  else none

/-- One round of the `select`: the new variables and the calls of `push` it triggers. -/
def step (hook : syslogHook) (s : LoopState) : Event → Option (LoopState × List PushCall)
  | .entry e => (onEntry hook s e).map fun s₁ => (s₁, [])
  | .tick => (onTick s).map fun r => (r.1, [r.2])

/-- The rounds of the `select` for a sequence of events, from the variables `s`: the final
variables and the calls of `push` in the order they were made (`none`: a panic). -/
def run (hook : syslogHook) : LoopState → List Event → Option (LoopState × List PushCall)
  | s, [] => some (s, [])
  | s, ev :: evs =>
    match step hook s ev with
    | none => none
    | some (s₁, c₁) =>
      match run hook s₁ evs with
      | none => none
      | some (s₂, c₂) => some (s₂, c₁ ++ c₂)

/-- Method `syslogHook.loop` on a sequence of events, from its `var` block. -/
def loop (hook : syslogHook) (evs : List Event) : Option (LoopState × List PushCall) :=
  match loopInit hook with
  | none => none
  | some s => run hook s evs

/-! ## The ingest channel and `Fire` -/

/-- The channel `hook.ch`: the records queued in it, oldest first, and whether it has been
closed. -/
structure Chan where
  queue : List Entry
  closed : Bool
deriving DecidableEq, Repr

/-- The capacity given to `hook.ch` by `newSyslogHook`. -/
def chCap : Nat := 1000

/-- The state of a running hook: its channel, the variables of `loop`, and the buffer and
connection `push` works on. -/
structure Shipper where
  ch : Chan
  vars : LoopState
  world : World
deriving DecidableEq, Repr

/-- How a call of `Fire` ends: it returns, it panics, or it cannot proceed in this state
(the send blocks). -/
inductive FireOutcome where
  | returned (err : Option Error) (st : Shipper)
  | panicked
  | blocked
deriving DecidableEq, Repr

/-- Method `syslogHook.Fire`: the send `hook.ch <- entry`, then `return nil`. A send on a
closed channel panics; a send on a channel holding `chCap` records blocks. -/
def Fire (s : Shipper) (entry : Entry) : FireOutcome :=
  if s.ch.closed then .panicked
  else if s.ch.queue.length < chCap then
    .returned none { s with ch := { s.ch with queue := s.ch.queue ++ [entry] } }
  else .blocked

/-- A sequence of calls of `Fire`, each starting when the one before has returned. -/
def fireAll : Shipper → List Entry → FireOutcome
  | s, [] => .returned none s
  | s, e :: es =>
    match Fire s e with
    | .returned _ s₁ => fireAll s₁ es
    | .panicked => .panicked
    | .blocked => .blocked

/-- The receive `entry, ok := <-hook.ch` of `loop`: the oldest queued record with `ok` true;
on an empty closed channel `ok` is false (`none`); on an empty open channel the case is
not ready. -/
inductive Recv where
  | got (e : Entry) (ch : Chan)
  | closed
  | notReady
deriving DecidableEq, Repr

/-- The receive operation on the channel. -/
def recv (ch : Chan) : Recv :=
  match ch.queue with
  | e :: q => .got e { ch with queue := q }
  | [] => if ch.closed then .closed else .notReady

/-- The records the accumulator gets from `n` successive receives, in the order received;
it stops early when the channel has no record. -/
def recvN : Nat → Chan → List Entry
  | 0, _ => []
  | n + 1, ch =>
    match recv ch with
    | .got e ch₁ => e :: recvN n ch₁
    | _ => []

/-- How one round of `loop` ends on the whole hook: the loop goes on, it returns (the
channel is closed), the selected case is not ready, or a goroutine panics. -/
inductive RoundOutcome where
  | continued (st : Shipper)
  | returned (st : Shipper)
  | notReady
  | panicked
deriving DecidableEq, Repr

/-- The state in which `push` leaves the buffer and the connection; its error is discarded
by `_ = hook.push(...)`. -/
def afterPush : Outcome World → Option World
  | .returned _ w => some w
  | .panicked => none

/-- One round of `loop` with the channel case selected. -/
def roundRecv (hook : syslogHook) (s : Shipper) : RoundOutcome :=
  match recv s.ch with
  | .notReady => .notReady
  | .closed => .returned s
  | .got e ch₁ =>
    match onEntry hook s.vars e with
    | none => .panicked
    | some v₁ => .continued { s with ch := ch₁, vars := v₁ }

/-- One round of `loop` with the ticker case selected, including the call of `push` that
the push goroutine makes for it. -/
def roundTick (env : Env) (hook : syslogHook) (s : Shipper) : RoundOutcome :=
  match onTick s.vars with
  | none => .panicked
  | some (v₁, call) =>
    match afterPush (push env hook call.entrys call.dropped s.world) with
    | none => .panicked
    | some w₁ => .continued { s with vars := v₁, world := w₁ }

/-! ## Reference notions used to state the properties -/

/-- A connection that respects the contract of `io.Writer`: it never reports more bytes
written than it was given. -/
def Env.Conforms (env : Env) : Prop :=
  ∀ earlier p, (env.Write earlier p).1 ≤ p.length

/-- The bytes the serialiser produces for one record. -/
def formatted (env : Env) (hook : syslogHook) (e : Entry) : Bytes :=
  (env.WriteTo (msgFromEntry e hook.additionalParams)).1

/-- The serialiser accepts the record. -/
def formatOk (env : Env) (hook : syslogHook) (e : Entry) : Prop :=
  (env.WriteTo (msgFromEntry e hook.additionalParams)).2 = none

/-- The concatenation, in order, of the formatted messages of a list of records. -/
def concatFormatted (env : Env) (hook : syslogHook) (rs : List Entry) : Bytes :=
  (rs.map (formatted env hook)).flatten

/-- The messages a batch stands for: one per record, then the overflow message when
`dropped` is not zero. -/
def batchMessages (env : Env) (hook : syslogHook) (rs : List Entry) (dropped : Int) :
    List Message :=
  rs.map (fun e => msgFromEntry e hook.additionalParams) ++
    (if dropped ≠ 0 then [msgFromEntry (overflowEntry env hook dropped) hook.additionalParams]
     else [])

/-- The bytes a batch stands for: the concatenation, in order, of what the serialiser
produces for each of its messages. -/
def batchBytes (env : Env) (hook : syslogHook) (rs : List Entry) (dropped : Int) : Bytes :=
  ((batchMessages env hook rs dropped).map fun m => (env.WriteTo m).1).flatten

/-- The calls of `Write` a connection has received once `bytes` have been handed to it by
`bytes.Buffer.WriteTo`: one more call when `bytes` is not empty, none otherwise. -/
def sinkAfter (written : List Bytes) (bytes : Bytes) : List Bytes :=
  if bytes = [] then written else written ++ [bytes]

/-- The records of the intervals of a run, from the spec: a tick ends the current interval;
`cur` holds the records received since the last tick. The result is the list of ended
intervals and the records of the interval still open. -/
def intervals (cur : List Entry) : List Event → List (List Entry) × List Entry
  | [] => ([], cur)
  | .entry e :: evs => intervals (cur ++ [e]) evs
  | .tick :: evs => (cur :: (intervals [] evs).1, (intervals [] evs).2)

/-- The call of `push` the spec attributes to an interval that received `rs`: the first
`limit` records, and the number of records beyond `limit` as drop count. -/
def pushOf (hook : syslogHook) (rs : List Entry) : PushCall :=
  { entrys := (rs.take hook.limit.toNat).map some
    dropped := ((rs.length - hook.limit.toNat : Nat) : Int) }

/-- The records among the events, in the order received. -/
def recordsOf : List Event → List Entry
  | [] => []
  | .entry e :: evs => e :: recordsOf evs
  | .tick :: evs => recordsOf evs

/-- The sum of the batch lengths and of the drop counts of a list of calls of `push`. -/
def accounted : List PushCall → Int
  | [] => 0
  | c :: cs => (c.entrys.length : Int) + c.dropped + accounted cs

/-! ## A concrete environment and hook, for evaluating the definitions -/

/-- The character codes of a string, standing for its bytes. -/
def encode (s : String) : Bytes :=
  s.toList.map Char.toNat

/-- A small serialiser: it rejects a message that has a parameter with an empty name, and
otherwise writes every parameter as `name=value` followed by a space, then the message text
and a line feed. -/
def sampleWriteTo (m : Message) : Bytes × Option Error :=
  let ps := (m.StructuredData.map fun sd => sd.Parameters).flatten
  if ps.any (fun p => decide (p.Name = "")) then ([], some "invalid value")
  else ((ps.map fun p => encode p.Name ++ [61] ++ encode p.Value ++ [32]).flatten
    ++ encode m.Message ++ [10], none)

/-- An environment whose connection accepts every write in full and whose durations are
whole seconds below one minute, printed as Go prints them (`1s`). -/
def sampleEnv : Env :=
  { WriteTo := sampleWriteTo
    Write := fun _ p => (p.length, none)
    DurationString := fun d => toString (d / 1000000000) ++ "s" }

/-- A hook as `newSyslogHook` builds it, with capacity 2, no static parameter and the
period of one second. -/
def sampleHook : syslogHook :=
  { SyslogNetwork := "tcp"
    SyslogRaddr := "localhost:514"
    additionalParams := []
    limit := 2
    pushPeriod := 1000000000 }

/-- A record with message `msg` and no field. -/
def sampleEntry (msg : String) : Entry :=
  { Data := [], Time := 0, Level := InfoLevel, Message := msg }

/-- A record whose only field has an empty name, which `sampleWriteTo` rejects. -/
def badEntry : Entry :=
  { Data := [("", .str "x")], Time := 0, Level := InfoLevel, Message := "bad" }

/-- The buffer and connection before anything was written. -/
def emptyWorld : World :=
  { b := [], written := [] }

/-- The variables of `loop` hold the records `cur` received since the last exchange of the
slots: both slots have `limit` places, the first `limit` records of `cur` fill the start of
the active slot, `count` is their number and `dropped` the number of records beyond them. -/
def Holds (hook : syslogHook) (s : LoopState) (cur : List Entry) : Prop :=
  s.entrys.length = hook.limit.toNat ∧
  s.entriesBeingPushed.length = hook.limit.toNat ∧
  s.count = ((min cur.length hook.limit.toNat : Nat) : Int) ∧
  s.dropped = ((cur.length - hook.limit.toNat : Nat) : Int) ∧
  s.entrys.take (min cur.length hook.limit.toNat) = (cur.take hook.limit.toNat).map some

/-- Formatting the batch `rs` with drop count `dropped` fails with the error `er`: `er` is
what the serialiser returns for the first record it rejects, or, when it accepts every
record and `dropped` is not zero, for the overflow record. -/
def FormatFails (env : Env) (hook : syslogHook) (rs : List Entry) (dropped : Int)
    (er : Error) : Prop :=
  (∃ pre bad post, rs = pre ++ bad :: post ∧ (∀ e ∈ pre, formatOk env hook e) ∧
    (env.WriteTo (msgFromEntry bad hook.additionalParams)).2 = some er) ∨
  ((∀ e ∈ rs, formatOk env hook e) ∧ dropped ≠ 0 ∧
    (env.WriteTo (msgFromEntry (overflowEntry env hook dropped) hook.additionalParams)).2 =
      some er)

/-- A record with the two fields `a` and `b`, visited in that order. -/
def twoFields : Entry :=
  { Data := [("a", .int 1), ("b", .int 2)], Time := 0, Level := InfoLevel, Message := "m" }

/-- The record `twoFields` with its field map visited in the other order. -/
def twoFieldsSwapped : Entry :=
  { Data := [("b", .int 2), ("a", .int 1)], Time := 0, Level := InfoLevel, Message := "m" }

/-- A hook state whose active slot holds the record A and the record `badEntry`. -/
def sampleShipper : Shipper :=
  { ch := { queue := [sampleEntry "Q"], closed := false }
    vars := { entrys := [some (sampleEntry "A"), some badEntry]
              entriesBeingPushed := [none, none]
              dropped := 0
              count := 2 }
    world := { b := [], written := [[1]] } }

/-- A hook state whose channel holds `chCap` records. -/
def fullShipper : Shipper :=
  { ch := { queue := List.replicate chCap (sampleEntry "A"), closed := false }
    vars := { entrys := [none, none], entriesBeingPushed := [none, none], dropped := 0, count := 0 }
    world := emptyWorld }

/-- A hook state whose channel has been closed. -/
def closedShipper : Shipper :=
  { ch := { queue := [], closed := true }
    vars := { entrys := [none, none], entriesBeingPushed := [none, none], dropped := 0, count := 0 }
    world := emptyWorld }

/-- An environment like `sampleEnv` whose connection is broken: every `Write` fails. -/
def brokenEnv : Env :=
  { WriteTo := sampleWriteTo
    Write := fun _ _ => (0, some "broken pipe")
    DurationString := fun d => toString (d / 1000000000) ++ "s" }

/-- The pushes of successive intervals, in order, each on the buffer and the connection as
the one before left them; the loop discards their errors (`none`: a push panicked). -/
def pushAll (env : Env) (hook : syslogHook) : World → List PushCall → Option World
  | w, [] => some w
  | w, c :: cs =>
    match afterPush (push env hook c.entrys c.dropped w) with
    | none => none
    | some w₁ => pushAll env hook w₁ cs

/-- A hook with capacity 0. -/
def zeroHook : syslogHook :=
  { SyslogNetwork := "tcp"
    SyslogRaddr := "localhost:514"
    additionalParams := []
    limit := 0
    pushPeriod := 1000000000 }

/-- The case that one round of the `select` of `loop` takes. -/
inductive Select where
  | channel
  | ticker
deriving DecidableEq, Repr

/-- One round of `loop` on the whole hook, for the case taken. -/
def round (env : Env) (hook : syslogHook) (s : Shipper) : Select → RoundOutcome
  | .channel => roundRecv hook s
  | .ticker => roundTick env hook s

/-- The rounds of `loop` for a sequence of cases taken, until the loop returns, a case is
not ready or a goroutine panics; `continued` means the loop is still running after them. -/
def rounds (env : Env) (hook : syslogHook) : Shipper → List Select → RoundOutcome
  | s, [] => .continued s
  | s, c :: cs =>
    match round env hook s c with
    | .continued s₁ => rounds env hook s₁ cs
    | .returned s₁ => .returned s₁
    | .notReady => .notReady
    | .panicked => .panicked

/-- The number of rounds that take the channel case. -/
def channelRounds : List Select → Nat
  | [] => 0
  | .channel :: cs => channelRounds cs + 1
  | .ticker :: cs => channelRounds cs

/-- A hook state whose channel was closed while it held the record Q; the active slot is
empty. -/
def closingShipper : Shipper :=
  { ch := { queue := [sampleEntry "Q"], closed := true }
    vars := { entrys := [none, none], entriesBeingPushed := [none, none], dropped := 0, count := 0 }
    world := emptyWorld }

/-- A hook state whose channel was closed while it held the record Q; the active slot is
full. -/
def closingFullShipper : Shipper :=
  { ch := { queue := [sampleEntry "Q"], closed := true }
    vars := { entrys := [some (sampleEntry "A"), some (sampleEntry "B")]
              entriesBeingPushed := [none, none]
              dropped := 0
              count := 2 }
    world := emptyWorld }

/-! ## The two goroutines of `loop`, step by step -/

/-- The two backing arrays that `loop` allocates with `make`. -/
inductive Slot where
  | first
  | second
deriving DecidableEq, Repr

/-- Where the accumulator (the `for`/`select` of `loop`) stands: at the `select`, or in the
ticker case, blocked in the send `pushCh <- ch` (and then in `<-ch`) until the push
goroutine has taken the request and closed `ch`. -/
inductive AccState where
  | selecting
  | sending
deriving DecidableEq, Repr

/-- Where the push goroutine of `loop` stands: at `range pushCh`; after `close(ch)` with
the old count and drop counter, before the call of `push`; or inside `push`, called on the
first `n` places of the array `slot`. -/
inductive PusherState where
  | idle
  | released (oldCount oldDropped : Int)
  | pushing (slot : Slot) (n : Nat) (dropped : Int)
deriving DecidableEq, Repr

/-- The state of the two goroutines: the content of the two arrays, the array each of the
slice variables `entrys` and `entriesBeingPushed` refers to, the counters, where each
goroutine stands, the buffer and connection, and the numbers of calls of `push` that have
started and ended. -/
structure Sys where
  first : List (Option Entry)
  second : List (Option Entry)
  entrys : Slot
  entriesBeingPushed : Slot
  dropped : Int
  count : Int
  acc : AccState
  pusher : PusherState
  world : World
  started : Nat
  ended : Nat
deriving DecidableEq, Repr

/-- The content of an array. -/
def Sys.get (s : Sys) : Slot → List (Option Entry)
  | .first => s.first
  | .second => s.second

/-- The state with the content of one array replaced. -/
def Sys.put (s : Sys) (k : Slot) (l : List (Option Entry)) : Sys :=
  match k with
  | .first => { s with first := l }
  | .second => { s with second := l }

/-- What can happen next: the `select` takes a record from `hook.ch`; the `select` takes a
tick; the push goroutine takes the request from `pushCh`, exchanges the slots and closes
`ch`; the push goroutine calls `push`; `push` returns. -/
inductive Action where
  | arrive (e : Entry)
  | tick
  | swap
  | pushStart
  | pushEnd
deriving DecidableEq, Repr

/-- The result of a step: a new state, or the step cannot be taken in this state, or a
goroutine panics. -/
inductive StepResult where
  | next (s : Sys)
  | disabled
  | panicked
deriving DecidableEq, Repr

/-- The state after the `var` block of `loop` and the start of its push goroutine. -/
def sysInit (hook : syslogHook) (w : World) : Option Sys :=
  if hook.limit < 0 then none
  else some
    { first := List.replicate hook.limit.toNat none
      second := List.replicate hook.limit.toNat none
      entrys := .first
      entriesBeingPushed := .second
      dropped := 0
      count := 0
      acc := .selecting
      pusher := .idle
      world := w
      started := 0
      ended := 0 }

/-- One step of `loop` and its push goroutine.
* `arrive`: the accumulator, at the `select`, counts a drop or stores the record at
  `entrys[count]`.
* `tick`: the accumulator, at the `select`, goes to send on `pushCh`, which has no buffer.
* `swap`: the push goroutine, at `range pushCh`, receives the request of the waiting
  accumulator, exchanges `entrys` and `entriesBeingPushed`, takes and zeroes the counters
  and closes `ch`, which lets the accumulator go back to the `select`.
* `pushStart`: the push goroutine evaluates `entriesBeingPushed[:oldCount]` and enters
  `push`.
* `pushEnd`: `push` has read its slice and written to the connection, and returns; the
  push goroutine is back at `range pushCh`. -/
def sysStep (env : Env) (hook : syslogHook) (s : Sys) : Action → StepResult
  | .arrive e =>
    match s.acc with
    | .sending => .disabled
    | .selecting =>
      if s.count = hook.limit then .next { s with dropped := s.dropped + 1 }
      else if 0 ≤ s.count ∧ s.count < (s.get s.entrys).length then
        .next { s.put s.entrys ((s.get s.entrys).set s.count.toNat (some e)) with
          count := s.count + 1 }
      else .panicked
  | .tick =>
    match s.acc with
    | .sending => .disabled
    | .selecting => .next { s with acc := .sending }
  | .swap =>
    match s.acc, s.pusher with
    | .sending, .idle =>
      .next { s with
        entrys := s.entriesBeingPushed
        entriesBeingPushed := s.entrys
        count := 0
        dropped := 0
        pusher := .released s.count s.dropped
        acc := .selecting }
    | _, _ => .disabled
  | .pushStart =>
    match s.pusher with
    | .released oldCount oldDropped =>
      if 0 ≤ oldCount ∧ oldCount ≤ (s.get s.entriesBeingPushed).length then
        .next { s with
          pusher := .pushing s.entriesBeingPushed oldCount.toNat oldDropped
          started := s.started + 1 }
      else .panicked
    | _ => .disabled
  | .pushEnd =>
    match s.pusher with
    | .pushing k n d =>
      match afterPush (push env hook ((s.get k).take n) d s.world) with
      | none => .panicked
      | some w => .next { s with pusher := .idle, world := w, ended := s.ended + 1 }
    | _ => .disabled

/-- The steps of a sequence of actions, from the state `s`. -/
def sysRun (env : Env) (hook : syslogHook) : Sys → List Action → StepResult
  | s, [] => .next s
  | s, a :: as =>
    match sysStep env hook s a with
    | .next s₁ => sysRun env hook s₁ as
    | .disabled => .disabled
    | .panicked => .panicked

/-- The steps of a sequence of actions from the start of `loop`, with nothing written yet. -/
def runSystem (env : Env) (hook : syslogHook) (acts : List Action) : StepResult :=
  match sysInit hook emptyWorld with
  | none => .panicked
  | some s => sysRun env hook s acts

/-- What holds in every state the two goroutines reach: the two slice variables refer to
different arrays, both of `limit` places; `count` is in range and the places below it in
the active array hold records; the counters of started and ended pushes agree with where
the push goroutine stands; a push in flight reads the array `entriesBeingPushed`, whose
places it reads hold records. -/
def SysInv (hook : syslogHook) (s : Sys) : Prop :=
  s.entrys ≠ s.entriesBeingPushed ∧
  s.first.length = hook.limit.toNat ∧ s.second.length = hook.limit.toNat ∧
  0 ≤ s.count ∧ s.count ≤ hook.limit ∧
  (∃ rs : List Entry, (s.get s.entrys).take s.count.toNat = rs.map some) ∧
  (match s.pusher with
    | .idle => s.started = s.ended
    | .released oc _ => s.started = s.ended ∧ 0 ≤ oc ∧ oc ≤ hook.limit ∧
        ∃ rs : List Entry, (s.get s.entriesBeingPushed).take oc.toNat = rs.map some
    | .pushing k n _ => s.started = s.ended + 1 ∧ k = s.entriesBeingPushed ∧
        ∃ rs : List Entry, (s.get k).take n = rs.map some)

/-- The events the accumulator sees when the channel holds the records `q` and is closed,
for a sequence of cases taken: a channel round receives the oldest queued record, a ticker
round is a tick, and the channel round that finds the queue empty ends the loop. -/
def eventsOf : List Entry → List Select → List Event
  | _, [] => []
  | q, .ticker :: cs => .tick :: eventsOf q cs
  | e :: q, .channel :: cs => .entry e :: eventsOf q cs
  | [], .channel :: _ => []

/-! ## Lemmas on `msgFromEntry` and `push` -/

theorem foldl_append_singleton {α β : Type} (f : α → β) (l : List α) (init : List β) :
    l.foldl (fun acc x => acc ++ [f x]) init = init ++ l.map f := by
  induction l generalizing init with
  | nil => simp
  | cons a l ih => simp [List.foldl, ih]

theorem msgFromEntry_structuredData (entry : Entry) (ps : List (String × String)) :
    (msgFromEntry entry ps).StructuredData =
      [⟨"k6", (⟨"level", entry.Level.String⟩ : SDParam) ::
        (entry.Data.map (fun nv => (⟨nv.1, Sprint nv.2⟩ : SDParam)) ++
          ps.map (fun p => (⟨p.1, p.2⟩ : SDParam)))⟩] := by
  have h₁ := foldl_append_singleton (fun nv : String × Value => (⟨nv.1, Sprint nv.2⟩ : SDParam))
  have h₂ := foldl_append_singleton (fun p : String × String => (⟨p.1, p.2⟩ : SDParam))
  simp only [msgFromEntry, h₁, h₂, List.singleton_append, List.cons_append, List.nil_append]

theorem pushEntries_ok (env : Env) (hook : syslogHook) (rs : List Entry) (w : World)
    (h : ∀ e ∈ rs, formatOk env hook e) :
    pushEntries env hook.additionalParams (rs.map some) w =
      .returned none { b := w.b ++ concatFormatted env hook rs, written := w.written } := by
  induction rs generalizing w with
  | nil => simp [pushEntries, concatFormatted]
  | cons e rs ih =>
    have he : (env.WriteTo (msgFromEntry e hook.additionalParams)).2 = none := h e (by simp)
    simp only [List.map_cons, pushEntries, writeMsg, he]
    rw [ih _ (fun x hx => h x (by simp [hx]))]
    simp [concatFormatted, formatted, List.append_assoc]

theorem pushEntries_fail (env : Env) (hook : syslogHook) (pre post : List Entry) (bad : Entry)
    (er : Error) (w : World) (hpre : ∀ e ∈ pre, formatOk env hook e)
    (hbad : (env.WriteTo (msgFromEntry bad hook.additionalParams)).2 = some er) :
    pushEntries env hook.additionalParams ((pre ++ bad :: post).map some) w =
      .returned (some er)
        { b := w.b ++ (concatFormatted env hook pre ++ formatted env hook bad),
          written := w.written } := by
  induction pre generalizing w with
  | nil => simp [pushEntries, writeMsg, hbad, concatFormatted, formatted]
  | cons e pre ih =>
    have he : (env.WriteTo (msgFromEntry e hook.additionalParams)).2 = none := hpre e (by simp)
    change pushEntries env _ (some e :: (pre ++ bad :: post).map some) w = _
    simp only [pushEntries, writeMsg, he]
    rw [ih _ (fun x hx => hpre x (by simp [hx]))]
    simp [concatFormatted, formatted, List.append_assoc]

theorem bufferWriteTo_returns (env : Env) (hc : env.Conforms) (w : World) :
    ∃ err w₁, bufferWriteTo env w = .returned err w₁ ∧ w₁.written = sinkAfter w.written w.b := by
  unfold bufferWriteTo
  by_cases hb : w.b = []
  · simp only [hb, sinkAfter, bufferReset, List.length_nil, Nat.lt_irrefl, if_false, if_true]
    exact ⟨_, _, rfl, rfl⟩
  · have hpos : 0 < w.b.length := List.length_pos.mpr hb
    have hle : ¬ w.b.length < (env.Write w.written w.b).1 := Nat.not_lt.mpr (hc _ _)
    simp only [hpos, hle, if_true, if_false, sinkAfter, hb]
    cases hr : (env.Write w.written w.b).2 with
    | some e => exact ⟨_, _, rfl, rfl⟩
    | none =>
      by_cases hm : (env.Write w.written w.b).1 = w.b.length
      · simp only [hm, bufferReset, ne_eq, not_true_eq_false, if_false]
        exact ⟨_, _, rfl, rfl⟩
      · simp only [hm, ne_eq, not_false_eq_true, if_true]
        exact ⟨_, _, rfl, rfl⟩

theorem batchBytes_eq (env : Env) (hook : syslogHook) (rs : List Entry) (dropped : Int) :
    batchBytes env hook rs dropped =
      concatFormatted env hook rs ++
        (if dropped ≠ 0 then formatted env hook (overflowEntry env hook dropped) else []) := by
  unfold batchBytes batchMessages concatFormatted
  by_cases hd : dropped = 0
  · simp only [hd, ne_eq, not_true_eq_false, if_false, List.append_nil, List.map_map]
    rfl
  · simp only [hd, ne_eq, not_false_eq_true, if_true, List.map_append, List.map_map,
      List.flatten_append, List.map_cons, List.map_nil, List.flatten_cons, List.flatten_nil,
      List.append_nil]
    rfl

theorem push_ok (env : Env) (hook : syslogHook) (rs : List Entry) (dropped : Int) (w : World)
    (hrs : ∀ e ∈ rs, formatOk env hook e)
    (hov : dropped ≠ 0 → formatOk env hook (overflowEntry env hook dropped)) :
    push env hook (rs.map some) dropped w =
      bufferWriteTo env { b := batchBytes env hook rs dropped, written := w.written } := by
  unfold push
  rw [pushEntries_ok env hook rs _ hrs, batchBytes_eq]
  by_cases hd : dropped = 0
  · simp [hd, bufferReset]
  · have ho : (env.WriteTo (msgFromEntry (overflowEntry env hook dropped)
        hook.additionalParams)).2 = none := hov hd
    simp [hd, bufferReset, writeMsg, ho, formatted]

theorem push_ok_written (env : Env) (hook : syslogHook) (rs : List Entry) (dropped : Int)
    (w : World) (hc : env.Conforms) (hrs : ∀ e ∈ rs, formatOk env hook e)
    (hov : dropped ≠ 0 → formatOk env hook (overflowEntry env hook dropped)) :
    ∃ err w₁, push env hook (rs.map some) dropped w = .returned err w₁ ∧
      w₁.written = sinkAfter w.written (batchBytes env hook rs dropped) := by
  rw [push_ok env hook rs dropped w hrs hov]
  exact bufferWriteTo_returns env hc _

theorem push_fail_entry (env : Env) (hook : syslogHook) (pre post : List Entry) (bad : Entry)
    (er : Error) (dropped : Int) (w : World) (hpre : ∀ e ∈ pre, formatOk env hook e)
    (hbad : (env.WriteTo (msgFromEntry bad hook.additionalParams)).2 = some er) :
    push env hook ((pre ++ bad :: post).map some) dropped w =
      .returned (some er)
        { b := concatFormatted env hook pre ++ formatted env hook bad, written := w.written } := by
  unfold push
  rw [pushEntries_fail env hook pre post bad er _ hpre hbad]
  simp [bufferReset]

theorem push_fail_overflow (env : Env) (hook : syslogHook) (rs : List Entry) (er : Error)
    (dropped : Int) (w : World) (hrs : ∀ e ∈ rs, formatOk env hook e) (hd : dropped ≠ 0)
    (hbad : (env.WriteTo (msgFromEntry (overflowEntry env hook dropped)
      hook.additionalParams)).2 = some er) :
    push env hook (rs.map some) dropped w =
      .returned (some er)
        { b := concatFormatted env hook rs ++ formatted env hook (overflowEntry env hook dropped),
          written := w.written } := by
  unfold push
  rw [pushEntries_ok env hook rs _ hrs]
  simp [hd, bufferReset, writeMsg, hbad, formatted]

theorem sampleEnv_conforms : sampleEnv.Conforms :=
  fun _ _ => Nat.le_refl _

/-! ## Lemmas on the accumulator `loop` -/

theorem take_succ_set {α : Type} (l : List α) (n : Nat) (x : α) (h : n < l.length) :
    (l.set n x).take (n + 1) = l.take n ++ [x] := by
  induction l generalizing n with
  | nil => simp at h
  | cons a l ih =>
    cases n with
    | zero => simp
    | succ n =>
      simp only [List.length_cons, Nat.add_lt_add_iff_right] at h
      simp [ih n h]

theorem loopInit_holds (hook : syslogHook) (hl : 0 ≤ hook.limit) :
    ∃ s, loopInit hook = some s ∧ Holds hook s [] := by
  refine ⟨⟨List.replicate hook.limit.toNat none, List.replicate hook.limit.toNat none, 0, 0⟩,
    by simp [loopInit, Int.not_lt.mpr hl], ?_⟩
  simp [Holds]

theorem onEntry_holds (hook : syslogHook) (hl : 0 ≤ hook.limit) (s : LoopState)
    (cur : List Entry) (e : Entry) (h : Holds hook s cur) :
    ∃ s₁, onEntry hook s e = some s₁ ∧ Holds hook s₁ (cur ++ [e]) ∧
      s₁.entriesBeingPushed = s.entriesBeingPushed := by
  obtain ⟨L, hL⟩ := Int.eq_ofNat_of_zero_le hl
  obtain ⟨h1, h2, h3, h4, h5⟩ := h
  simp only [hL, Int.toNat_ofNat] at h1 h2 h3 h4 h5
  by_cases hfull : L ≤ cur.length
  · have hmin : min cur.length L = L := Nat.min_eq_right hfull
    have hc : s.count = hook.limit := by rw [h3, hL, hmin]
    refine ⟨{ s with dropped := s.dropped + 1 }, by simp [onEntry, hc], ?_, rfl⟩
    simp only [Holds, hL, Int.toNat_ofNat, List.length_append, List.length_singleton]
    refine ⟨h1, h2, ?_, ?_, ?_⟩
    · rw [h3]; congr 1; omega
    · rw [h4]; omega
    · have hmin₁ : min (cur.length + 1) L = L := by omega
      rw [hmin₁, List.take_append_of_le_length hfull, ← h5, hmin]
  · have hlt : cur.length < L := Nat.lt_of_not_le hfull
    have hmin : min cur.length L = cur.length := Nat.min_eq_left (Nat.le_of_lt hlt)
    rw [hmin] at h3 h5
    have hc : ¬ s.count = hook.limit := by rw [h3, hL]; omega
    have hidx : 0 ≤ s.count ∧ s.count < (s.entrys.length : Int) := by
      rw [h3, h1]; omega
    refine ⟨{ s with entrys := s.entrys.set s.count.toNat (some e), count := s.count + 1 },
      by simp [onEntry, hc, hidx], ?_, rfl⟩
    simp only [Holds, hL, Int.toNat_ofNat, List.length_append, List.length_singleton,
      List.length_set]
    have hmin₁ : min (cur.length + 1) L = cur.length + 1 := by omega
    refine ⟨h1, h2, ?_, ?_, ?_⟩
    · rw [h3, hmin₁]; push_cast; rfl
    · rw [h4]; omega
    · have e₁ : (cur ++ [e]).take L = cur ++ [e] :=
        List.take_of_length_le (by simp only [List.length_append, List.length_singleton]; omega)
      have e₂ : cur.take L = cur := List.take_of_length_le (Nat.le_of_lt hlt)
      rw [hmin₁, h3, Int.toNat_ofNat, take_succ_set _ _ _ (by omega), h5, e₁, e₂]
      simp

theorem onTick_holds (hook : syslogHook) (hl : 0 ≤ hook.limit) (s : LoopState)
    (cur : List Entry) (h : Holds hook s cur) :
    ∃ s₁, onTick s = some (s₁, pushOf hook cur) ∧ Holds hook s₁ [] ∧
      s₁.entrys = s.entriesBeingPushed ∧ s₁.entriesBeingPushed = s.entrys ∧
      s₁.count = 0 ∧ s₁.dropped = 0 := by
  obtain ⟨L, hL⟩ := Int.eq_ofNat_of_zero_le hl
  obtain ⟨h1, h2, h3, h4, h5⟩ := h
  simp only [hL, Int.toNat_ofNat] at h1 h2 h3 h4 h5
  have hidx : 0 ≤ s.count ∧ s.count ≤ (s.entrys.length : Int) := by
    rw [h3, h1]; omega
  refine ⟨⟨s.entriesBeingPushed, s.entrys, 0, 0⟩, ?_, ?_, rfl, rfl, rfl, rfl⟩
  · simp only [onTick, hidx, and_self, if_true, pushOf, hL, Int.toNat_ofNat]
    rw [h3, Int.toNat_ofNat, h5, h4]
  · simp [Holds, hL, h1, h2]

theorem run_holds (hook : syslogHook) (hl : 0 ≤ hook.limit) (evs : List Event) :
    ∀ (s : LoopState) (cur : List Entry), Holds hook s cur →
      ∃ s₁, run hook s evs = some (s₁, (intervals cur evs).1.map (pushOf hook)) ∧
        Holds hook s₁ (intervals cur evs).2 := by
  induction evs with
  | nil => intro s cur h; exact ⟨s, rfl, h⟩
  | cons ev evs ih =>
    intro s cur h
    cases ev with
    | entry e =>
      obtain ⟨s₁, hs₁, hh, _⟩ := onEntry_holds hook hl s cur e h
      obtain ⟨s₂, hs₂, hh₂⟩ := ih s₁ _ hh
      exact ⟨s₂, by simp [run, step, hs₁, hs₂, intervals], by simpa [intervals] using hh₂⟩
    | tick =>
      obtain ⟨s₁, hs₁, hh, _⟩ := onTick_holds hook hl s cur h
      obtain ⟨s₂, hs₂, hh₂⟩ := ih s₁ _ hh
      exact ⟨s₂, by simp [run, step, hs₁, hs₂, intervals], by simpa [intervals] using hh₂⟩

theorem loop_holds (hook : syslogHook) (hl : 0 ≤ hook.limit) (evs : List Event) :
    ∃ s, loop hook evs = some (s, (intervals [] evs).1.map (pushOf hook)) ∧
      Holds hook s (intervals [] evs).2 := by
  obtain ⟨s₀, hs₀, h₀⟩ := loopInit_holds hook hl
  obtain ⟨s, hs, h⟩ := run_holds hook hl evs s₀ [] h₀
  exact ⟨s, by simp [loop, hs₀, hs], h⟩

theorem intervals_append (evs₁ evs₂ : List Event) :
    ∀ cur : List Entry, intervals cur (evs₁ ++ evs₂) =
      ((intervals cur evs₁).1 ++ (intervals (intervals cur evs₁).2 evs₂).1,
        (intervals (intervals cur evs₁).2 evs₂).2) := by
  induction evs₁ with
  | nil => intro cur; simp [intervals]
  | cons ev evs ih =>
    intro cur
    cases ev with
    | entry e => simp [intervals, ih]
    | tick => simp [intervals, ih]

theorem intervals_entries (rs : List Entry) :
    ∀ cur : List Entry, intervals cur (rs.map Event.entry) = ([], cur ++ rs) := by
  induction rs with
  | nil => intro cur; simp [intervals]
  | cons r rs ih => intro cur; simp [intervals, ih]

theorem intervals_after_tick (hist : List Event)
    (hh : hist = [] ∨ ∃ pre, hist = pre ++ [Event.tick]) : (intervals [] hist).2 = [] := by
  rcases hh with rfl | ⟨pre, rfl⟩
  · rfl
  · simp [intervals_append, intervals]

theorem intervals_interval (hist : List Event) (rs : List Entry)
    (hh : (intervals [] hist).2 = []) :
    intervals [] (hist ++ rs.map Event.entry ++ [Event.tick]) =
      ((intervals [] hist).1 ++ [rs], []) := by
  rw [intervals_append, intervals_append, hh, intervals_entries]
  simp [intervals]

theorem accounted_pushOf (hook : syslogHook) (ivs : List (List Entry)) :
    accounted (ivs.map (pushOf hook)) = (((ivs.map List.length).sum : Nat) : Int) := by
  induction ivs with
  | nil => rfl
  | cons rs ivs ih =>
    simp only [List.map_cons, accounted, ih, pushOf, List.length_map, List.length_take,
      List.sum_cons]
    omega

theorem recordsOf_intervals (evs : List Event) :
    ∀ cur : List Entry,
      (intervals cur evs).1.flatten ++ (intervals cur evs).2 = cur ++ recordsOf evs := by
  induction evs with
  | nil => intro cur; simp [intervals, recordsOf]
  | cons ev evs ih =>
    intro cur
    cases ev with
    | entry e => simp [intervals, recordsOf, ih]
    | tick => simpa [intervals, recordsOf] using ih []

theorem length_intervals (evs : List Event) :
    ((intervals [] evs).1.map List.length).sum + (intervals [] evs).2.length =
      (recordsOf evs).length := by
  have h := congrArg List.length (recordsOf_intervals evs [])
  simpa [List.length_flatten] using h

/-! ## The batching protocol -/

/-- C1 (as stated) fails when the serialiser rejects a record of the interval: with
capacity 2, the interval A, bad makes the tick call `push([A, bad], 0)`, and that push
returns the error of the serialiser having written nothing to the connection, although the
formatted messages of the interval are not empty. -/
theorem loop_interval_within_limit_counterexample :
    (([sampleEntry "A", badEntry].length : Nat) : Int) ≤ sampleHook.limit ∧
    loop sampleHook ([sampleEntry "A", badEntry].map Event.entry ++ [Event.tick]) =
      some (⟨[none, none], [some (sampleEntry "A"), some badEntry], 0, 0⟩,
        [⟨[sampleEntry "A", badEntry].map some, 0⟩]) ∧
    push sampleEnv sampleHook ([sampleEntry "A", badEntry].map some) 0 emptyWorld =
      .returned (some "invalid value") ⟨formatted sampleEnv sampleHook (sampleEntry "A"), []⟩ ∧
    concatFormatted sampleEnv sampleHook [sampleEntry "A", badEntry] ≠ [] := by
  refine ⟨by decide, by decide, by decide, by decide⟩

/-- C1 (amended): for every capacity `limit ≥ 0` and every run of `loop`, whatever happened before
(`hist` is empty or ends with a tick, so the interval starts at the start of the loop or at
an exchange of the slots, with whatever the slots then hold), if the records `rs` received
before the next tick number at most `limit`, then that tick calls `push` with exactly `rs`,
in the order received, and with `dropped = 0`; and when the serialiser accepts each of
the records (and the connection respects the contract of `io.Writer`) `push` returns
having handed the connection exactly the concatenation of their formatted messages, in
that order, with no overflow message. -/
theorem loop_interval_within_limit (env : Env) (hook : syslogHook) (hist : List Event)
    (rs : List Entry) (hl : 0 ≤ hook.limit)
    (hh : hist = [] ∨ ∃ pre, hist = pre ++ [Event.tick])
    (hrs : (rs.length : Int) ≤ hook.limit) :
    ∃ s₀ calls₀ s₁,
      loop hook hist = some (s₀, calls₀) ∧
      loop hook (hist ++ rs.map Event.entry ++ [Event.tick]) =
        some (s₁, calls₀ ++ [⟨rs.map some, 0⟩]) ∧
      ∀ w : World, env.Conforms → (∀ e ∈ rs, formatOk env hook e) →
        ∃ err w₁, push env hook (rs.map some) 0 w = .returned err w₁ ∧
          w₁.written = sinkAfter w.written (concatFormatted env hook rs) := by
  obtain ⟨s₀, hs₀, _⟩ := loop_holds hook hl hist
  obtain ⟨s₁, hs₁, _⟩ := loop_holds hook hl (hist ++ rs.map Event.entry ++ [Event.tick])
  have hcur := intervals_after_tick hist hh
  have hp : pushOf hook rs = ⟨rs.map some, 0⟩ := by
    have h₁ : rs.length ≤ hook.limit.toNat := by omega
    simp only [pushOf, List.take_of_length_le h₁, Nat.sub_eq_zero_of_le h₁]
    rfl
  refine ⟨s₀, _, s₁, hs₀, ?_, ?_⟩
  · rw [hs₁, intervals_interval hist rs hcur, List.map_append, List.map_singleton, hp]
  · intro w hc hok
    obtain ⟨err, w₁, hpush, hw⟩ := push_ok_written env hook rs 0 w hc hok (fun h => absurd rfl h)
    refine ⟨err, w₁, hpush, ?_⟩
    rw [hw, batchBytes_eq]
    simp

/-- C1 (amended), evaluated: with capacity 2, after an interval that overflowed, the record `E` alone
in the next interval is pushed alone, with no drop and no overflow message. -/
theorem loop_interval_within_limit_witness :
    (0 : Int) ≤ sampleHook.limit ∧
    (([sampleEntry "E"].length : Nat) : Int) ≤ sampleHook.limit ∧
    ∃ s₀ calls₀ s₁,
      loop sampleHook [.entry (sampleEntry "A"), .entry (sampleEntry "B"),
        .entry (sampleEntry "C"), .tick] = some (s₀, calls₀) ∧
      loop sampleHook ([.entry (sampleEntry "A"), .entry (sampleEntry "B"),
        .entry (sampleEntry "C"), .tick] ++ [sampleEntry "E"].map Event.entry ++ [Event.tick]) =
        some (s₁, calls₀ ++ [⟨[sampleEntry "E"].map some, 0⟩]) ∧
      ∀ w : World, sampleEnv.Conforms → (∀ e ∈ [sampleEntry "E"], formatOk sampleEnv sampleHook e) →
        ∃ err w₁, push sampleEnv sampleHook ([sampleEntry "E"].map some) 0 w = .returned err w₁ ∧
          w₁.written = sinkAfter w.written (concatFormatted sampleEnv sampleHook [sampleEntry "E"]) :=
  ⟨by decide, by decide,
    loop_interval_within_limit sampleEnv sampleHook
      [.entry (sampleEntry "A"), .entry (sampleEntry "B"), .entry (sampleEntry "C"), .tick]
      [sampleEntry "E"] (by decide)
      (Or.inr ⟨[.entry (sampleEntry "A"), .entry (sampleEntry "B"), .entry (sampleEntry "C")], rfl⟩)
      (by decide)⟩

/-- C2 (as stated) fails when the serialiser rejects one of the first `limit` records: with
capacity 2, the interval bad, A, C makes the tick call `push([bad, A], 1)`, and that push
returns the error of the serialiser having written nothing to the connection: neither the
two messages nor the overflow message. -/
theorem loop_interval_over_limit_counterexample :
    (([badEntry, sampleEntry "A", sampleEntry "C"].length : Nat) : Int) = sampleHook.limit + 1 ∧
    loop sampleHook ([badEntry, sampleEntry "A", sampleEntry "C"].map Event.entry ++
        [Event.tick]) =
      some (⟨[none, none], [some badEntry, some (sampleEntry "A")], 0, 0⟩,
        [⟨[some badEntry, some (sampleEntry "A")], 1⟩]) ∧
    push sampleEnv sampleHook [some badEntry, some (sampleEntry "A")] 1 emptyWorld =
      .returned (some "invalid value") ⟨[], []⟩ ∧
    formatted sampleEnv sampleHook (overflowEntry sampleEnv sampleHook 1) ≠ [] := by
  refine ⟨by decide, by decide, by decide, by decide⟩

/-- C2 (amended): for every capacity `limit ≥ 0` and every `k ≥ 1`, if `limit + k` records
are received in one interval, the tick that ends it calls `push` with exactly the first
`limit` of them, in the order received, and with `dropped = k`; right after the exchange
`count` and `dropped` are 0; the overflow message for `k` has the `droppedCount` parameter
`k`; and when the serialiser accepts those `limit` records and the overflow record (and
the connection respects the contract of `io.Writer`) `push` returns having handed the
connection the `limit` formatted messages followed by exactly that one overflow message. -/
theorem loop_interval_over_limit (env : Env) (hook : syslogHook) (hist : List Event)
    (rs : List Entry) (k : Int) (hl : 0 ≤ hook.limit)
    (hh : hist = [] ∨ ∃ pre, hist = pre ++ [Event.tick]) (hk : 1 ≤ k)
    (hrs : (rs.length : Int) = hook.limit + k) :
    ∃ s₀ calls₀ s₁,
      loop hook hist = some (s₀, calls₀) ∧
      loop hook (hist ++ rs.map Event.entry ++ [Event.tick]) =
        some (s₁, calls₀ ++ [⟨(rs.take hook.limit.toNat).map some, k⟩]) ∧
      ((rs.take hook.limit.toNat).length : Int) = hook.limit ∧
      s₁.count = 0 ∧ s₁.dropped = 0 ∧
      (⟨"droppedCount", toString k⟩ : SDParam) ∈
        ((msgFromEntry (overflowEntry env hook k) hook.additionalParams).StructuredData.map
          fun sd => sd.Parameters).flatten ∧
      ∀ w : World, env.Conforms → (∀ e ∈ rs.take hook.limit.toNat, formatOk env hook e) →
        formatOk env hook (overflowEntry env hook k) →
        ∃ err w₁, push env hook ((rs.take hook.limit.toNat).map some) k w = .returned err w₁ ∧
          w₁.written = sinkAfter w.written
            (concatFormatted env hook (rs.take hook.limit.toNat) ++
              formatted env hook (overflowEntry env hook k)) := by
  obtain ⟨s₀, hs₀, _⟩ := loop_holds hook hl hist
  obtain ⟨s₁, hs₁, hh₁⟩ := loop_holds hook hl (hist ++ rs.map Event.entry ++ [Event.tick])
  have hcur := intervals_after_tick hist hh
  have hk0 : k ≠ 0 := by omega
  have hp : pushOf hook rs = ⟨(rs.take hook.limit.toNat).map some, k⟩ := by
    have h₁ : ((rs.length - hook.limit.toNat : Nat) : Int) = k := by omega
    simp only [pushOf, h₁]
  rw [intervals_interval hist rs hcur] at hs₁ hh₁
  obtain ⟨_, _, h3, h4, _⟩ := hh₁
  refine ⟨s₀, _, s₁, hs₀, ?_, ?_, ?_, ?_, ?_, ?_⟩
  · rw [hs₁, List.map_append, List.map_singleton, hp]
  · rw [List.length_take]; omega
  · simpa using h3
  · simpa using h4
  · rw [msgFromEntry_structuredData]
    simp [overflowEntry, Sprint]
  · intro w hc hok hov
    obtain ⟨err, w₁, hpush, hw⟩ :=
      push_ok_written env hook (rs.take hook.limit.toNat) k w hc hok (fun _ => hov)
    refine ⟨err, w₁, hpush, ?_⟩
    rw [hw, batchBytes_eq]
    simp [hk0]

/-- C2 (amended), evaluated: with capacity 2, the records A, B, C, D in one interval give the call
`push([A, B], 2)`, which writes A, B and one overflow message, in one write. -/
theorem loop_interval_over_limit_witness :
    (0 : Int) ≤ sampleHook.limit ∧ (1 : Int) ≤ 2 ∧
    (([sampleEntry "A", sampleEntry "B", sampleEntry "C", sampleEntry "D"].length : Nat) : Int) =
      sampleHook.limit + 2 ∧
    (∃ s₀ calls₀ s₁,
      loop sampleHook [] = some (s₀, calls₀) ∧
      loop sampleHook ([] ++ [sampleEntry "A", sampleEntry "B", sampleEntry "C",
        sampleEntry "D"].map Event.entry ++ [Event.tick]) =
        some (s₁, calls₀ ++ [⟨([sampleEntry "A", sampleEntry "B", sampleEntry "C",
          sampleEntry "D"].take sampleHook.limit.toNat).map some, 2⟩]) ∧
      ((([sampleEntry "A", sampleEntry "B", sampleEntry "C",
          sampleEntry "D"].take sampleHook.limit.toNat).length : Nat) : Int) = sampleHook.limit ∧
      s₁.count = 0 ∧ s₁.dropped = 0 ∧
      (⟨"droppedCount", toString (2 : Int)⟩ : SDParam) ∈
        ((msgFromEntry (overflowEntry sampleEnv sampleHook 2)
          sampleHook.additionalParams).StructuredData.map fun sd => sd.Parameters).flatten ∧
      ∀ w : World, sampleEnv.Conforms →
        (∀ e ∈ [sampleEntry "A", sampleEntry "B", sampleEntry "C",
          sampleEntry "D"].take sampleHook.limit.toNat, formatOk sampleEnv sampleHook e) →
        formatOk sampleEnv sampleHook (overflowEntry sampleEnv sampleHook 2) →
        ∃ err w₁, push sampleEnv sampleHook (([sampleEntry "A", sampleEntry "B", sampleEntry "C",
            sampleEntry "D"].take sampleHook.limit.toNat).map some) 2 w = .returned err w₁ ∧
          w₁.written = sinkAfter w.written
            (concatFormatted sampleEnv sampleHook ([sampleEntry "A", sampleEntry "B",
              sampleEntry "C", sampleEntry "D"].take sampleHook.limit.toNat) ++
              formatted sampleEnv sampleHook (overflowEntry sampleEnv sampleHook 2))) ∧
    loop sampleHook [.entry (sampleEntry "A"), .entry (sampleEntry "B"),
      .entry (sampleEntry "C"), .entry (sampleEntry "D"), .tick] =
      some (⟨[none, none], [some (sampleEntry "A"), some (sampleEntry "B")], 0, 0⟩,
        [⟨[some (sampleEntry "A"), some (sampleEntry "B")], 2⟩]) ∧
    push sampleEnv sampleHook [some (sampleEntry "A"), some (sampleEntry "B")] 2 emptyWorld =
      .returned none ⟨[], [formatted sampleEnv sampleHook (sampleEntry "A") ++
        formatted sampleEnv sampleHook (sampleEntry "B") ++
        formatted sampleEnv sampleHook (overflowEntry sampleEnv sampleHook 2)]⟩ :=
  ⟨by decide, by decide, by decide,
    loop_interval_over_limit sampleEnv sampleHook []
      [sampleEntry "A", sampleEntry "B", sampleEntry "C", sampleEntry "D"] 2
      (by decide) (Or.inl rfl) (by decide) (by decide),
    by decide, by rfl⟩

/-- C3: in every state the loop reaches, for every sequence of record arrivals and ticks
(the loop reaches a state for each of them: it never panics), `0 ≤ count ≤ limit` and the
active slot has `limit` places; a record that arrives when `count = limit` changes nothing
but the drop counter, which grows by exactly 1 (both slots and `count` stay as they are); a
record that arrives when `count < limit` is stored at index `count` of the active slot,
`count` grows by exactly 1, and the drop counter and the other slot stay as they are. -/
theorem loop_count_bounded (hook : syslogHook) (evs : List Event) (hl : 0 ≤ hook.limit) :
    ∃ s calls, loop hook evs = some (s, calls) ∧
      0 ≤ s.count ∧ s.count ≤ hook.limit ∧ (s.entrys.length : Int) = hook.limit ∧
      ∀ e : Entry,
        (s.count = hook.limit →
          onEntry hook s e = some ⟨s.entrys, s.entriesBeingPushed, s.dropped + 1, s.count⟩) ∧
        (s.count < hook.limit →
          onEntry hook s e = some ⟨s.entrys.set s.count.toNat (some e), s.entriesBeingPushed,
            s.dropped, s.count + 1⟩ ∧
          (s.entrys.set s.count.toNat (some e))[s.count.toNat]? = some (some e)) := by
  obtain ⟨s, hs, h1, _, h3, _, _⟩ := loop_holds hook hl evs
  have hc0 : 0 ≤ s.count := by rw [h3]; omega
  have hcl : s.count ≤ hook.limit := by rw [h3]; omega
  have hlen : (s.entrys.length : Int) = hook.limit := by rw [h1]; omega
  refine ⟨s, _, hs, hc0, hcl, hlen, fun e => ⟨fun hfull => ?_, fun hlt => ⟨?_, ?_⟩⟩⟩
  · simp [onEntry, hfull]
  · have hne : ¬ s.count = hook.limit := by omega
    have hidx : 0 ≤ s.count ∧ s.count < (s.entrys.length : Int) := ⟨hc0, by omega⟩
    simp [onEntry, hne, hidx]
  · have hidx : s.count.toNat < s.entrys.length := by omega
    simp [hidx]

/-- C3, evaluated: with capacity 2, after A, B and C the count is 2, the limit. -/
theorem loop_count_bounded_witness :
    (0 : Int) ≤ sampleHook.limit ∧
    loop sampleHook [.entry (sampleEntry "A"), .entry (sampleEntry "B"),
      .entry (sampleEntry "C")] =
      some (⟨[some (sampleEntry "A"), some (sampleEntry "B")], [none, none], 1, 2⟩, []) ∧
    ∃ s calls, loop sampleHook [.entry (sampleEntry "A"), .entry (sampleEntry "B"),
        .entry (sampleEntry "C")] = some (s, calls) ∧
      0 ≤ s.count ∧ s.count ≤ sampleHook.limit ∧ (s.entrys.length : Int) = sampleHook.limit ∧
      ∀ e : Entry,
        (s.count = sampleHook.limit →
          onEntry sampleHook s e =
            some ⟨s.entrys, s.entriesBeingPushed, s.dropped + 1, s.count⟩) ∧
        (s.count < sampleHook.limit →
          onEntry sampleHook s e = some ⟨s.entrys.set s.count.toNat (some e),
            s.entriesBeingPushed, s.dropped, s.count + 1⟩ ∧
          (s.entrys.set s.count.toNat (some e))[s.count.toNat]? = some (some e)) :=
  ⟨by decide, by decide,
    loop_count_bounded sampleHook
      [.entry (sampleEntry "A"), .entry (sampleEntry "B"), .entry (sampleEntry "C")]
      (by decide)⟩

/-- C6: for every finite run of `loop` from its start, every received record is accounted
for exactly once. The number of records received is the sum of the batch lengths and drop
counts passed to the pushes so far plus the current `count` and drop counter. The ticks cut
the received records into intervals (`intervals`: the ended ones and the open one, which
together are the received records, in order); the pushes are, in order, one per ended
interval, each with the first `limit` records of its own interval as batch and the number
of its remaining records, those that arrived while the slot was full, as drop count; and
the open interval is held by `count`, the drop counter and the active slot in the same
way. -/
theorem loop_accounting (hook : syslogHook) (evs : List Event) (hl : 0 ≤ hook.limit) :
    ∃ s calls, loop hook evs = some (s, calls) ∧
      ((recordsOf evs).length : Int) = accounted calls + s.count + s.dropped ∧
      (intervals [] evs).1.flatten ++ (intervals [] evs).2 = recordsOf evs ∧
      calls = (intervals [] evs).1.map
        (fun rs => ⟨(rs.take hook.limit.toNat).map some,
          ((rs.length - hook.limit.toNat : Nat) : Int)⟩) ∧
      s.count = ((min (intervals [] evs).2.length hook.limit.toNat : Nat) : Int) ∧
      s.dropped = (((intervals [] evs).2.length - hook.limit.toNat : Nat) : Int) ∧
      s.entrys.take s.count.toNat = ((intervals [] evs).2.take hook.limit.toNat).map some := by
  obtain ⟨s, hs, _, _, h3, h4, h5⟩ := loop_holds hook hl evs
  refine ⟨s, _, hs, ?_, ?_, rfl, h3, h4, ?_⟩
  · rw [accounted_pushOf, h3, h4, ← length_intervals]
    omega
  · simpa using recordsOf_intervals evs []
  · rw [h3, Int.toNat_ofNat, h5]

/-- C6, evaluated: with capacity 2, the run A, B, C, D, tick, E accounts for its five
records as a batch of two, two drops and one record held. -/
theorem loop_accounting_witness :
    (0 : Int) ≤ sampleHook.limit ∧
    ∃ s calls, loop sampleHook [.entry (sampleEntry "A"), .entry (sampleEntry "B"),
        .entry (sampleEntry "C"), .entry (sampleEntry "D"), .tick, .entry (sampleEntry "E")] =
        some (s, calls) ∧
      calls = [⟨[some (sampleEntry "A"), some (sampleEntry "B")], 2⟩] ∧
      s.count = 1 ∧ s.dropped = 0 ∧ (5 : Int) = accounted calls + s.count + s.dropped := by
  obtain ⟨s, calls, hs, hacc, _, hcalls, hcount, hdropped, _⟩ :=
    loop_accounting sampleHook [.entry (sampleEntry "A"), .entry (sampleEntry "B"),
      .entry (sampleEntry "C"), .entry (sampleEntry "D"), .tick, .entry (sampleEntry "E")]
      (by decide)
  exact ⟨by decide, s, calls, hs, hcalls, hcount, hdropped, hacc⟩

/-! ## `push` and the connection -/

/-- C4 (as stated) fails at two inputs. With an empty batch and `dropped = 0` formatting
succeeds and `push` returns without any write to the connection (the buffer is empty, and
`bytes.Buffer.WriteTo` does not call `Write` for an empty buffer), not exactly one. With
`dropped = -1` the overflow message is written, so one message is written for an empty
batch, not `0 + (1 if dropped > 0 else 0) = 0`. -/
theorem push_writes_batch_counterexample :
    push sampleEnv sampleHook [] 0 emptyWorld = .returned none ⟨[], []⟩ ∧
    push sampleEnv sampleHook [] (-1) emptyWorld =
      .returned none ⟨[], [formatted sampleEnv sampleHook
        (overflowEntry sampleEnv sampleHook (-1))]⟩ ∧
    (batchMessages sampleEnv sampleHook [] (-1)).length = 1 ∧
    ¬ ((batchMessages sampleEnv sampleHook [] (-1)).length =
        ([] : List Entry).length + (if (-1 : Int) > 0 then 1 else 0)) := by
  refine ⟨by decide, by decide, by decide, by decide⟩

/-- C4 (amended): for every list of records and every integer `dropped`, when formatting
succeeds `push` returns having handed the connection exactly the concatenation, in order,
of the formatted message of each record, followed by the formatted overflow message if and
only if `dropped != 0`, and no other byte: in exactly one call of `Write` when that
concatenation is not empty, and in no call at all when it is empty. The number of messages
is `len(entrys) + (1 if dropped != 0 else 0)`. -/
theorem push_writes_batch (env : Env) (hook : syslogHook) (rs : List Entry) (dropped : Int)
    (w : World) (hc : env.Conforms) (hrs : ∀ e ∈ rs, formatOk env hook e)
    (hov : dropped ≠ 0 → formatOk env hook (overflowEntry env hook dropped)) :
    ∃ err w₁, push env hook (rs.map some) dropped w = .returned err w₁ ∧
      (batchBytes env hook rs dropped ≠ [] →
        w₁.written = w.written ++ [batchBytes env hook rs dropped]) ∧
      (batchBytes env hook rs dropped = [] → w₁.written = w.written) ∧
      batchBytes env hook rs dropped =
        concatFormatted env hook rs ++
          (if dropped ≠ 0 then formatted env hook (overflowEntry env hook dropped) else []) ∧
      (batchMessages env hook rs dropped).length = rs.length + (if dropped ≠ 0 then 1 else 0) := by
  obtain ⟨err, w₁, hpush, hw⟩ := push_ok_written env hook rs dropped w hc hrs hov
  refine ⟨err, w₁, hpush, ?_, ?_, batchBytes_eq env hook rs dropped, ?_⟩
  · intro hne
    rw [hw, sinkAfter, if_neg hne]
  · intro he
    rw [hw, sinkAfter, if_pos he]
  · by_cases hd : dropped = 0
    · simp [batchMessages, hd]
    · simp [batchMessages, hd]

/-- C4 (amended), evaluated on the batch A with two drops. -/
theorem push_writes_batch_witness :
    sampleEnv.Conforms ∧ (∀ e ∈ [sampleEntry "A"], formatOk sampleEnv sampleHook e) ∧
    ((2 : Int) ≠ 0 → formatOk sampleEnv sampleHook (overflowEntry sampleEnv sampleHook 2)) ∧
    ∃ err w₁, push sampleEnv sampleHook ([sampleEntry "A"].map some) 2 emptyWorld =
        .returned err w₁ ∧
      (batchBytes sampleEnv sampleHook [sampleEntry "A"] 2 ≠ [] →
        w₁.written = emptyWorld.written ++ [batchBytes sampleEnv sampleHook [sampleEntry "A"] 2]) ∧
      (batchBytes sampleEnv sampleHook [sampleEntry "A"] 2 = [] →
        w₁.written = emptyWorld.written) ∧
      batchBytes sampleEnv sampleHook [sampleEntry "A"] 2 =
        concatFormatted sampleEnv sampleHook [sampleEntry "A"] ++
          (if (2 : Int) ≠ 0 then formatted sampleEnv sampleHook
            (overflowEntry sampleEnv sampleHook 2) else []) ∧
      (batchMessages sampleEnv sampleHook [sampleEntry "A"] 2).length =
        [sampleEntry "A"].length + (if (2 : Int) ≠ 0 then 1 else 0) :=
  have h₁ : ∀ e ∈ [sampleEntry "A"], formatOk sampleEnv sampleHook e := by
    intro e he
    rw [List.mem_singleton] at he
    subst he
    unfold formatOk
    decide
  have h₂ : (2 : Int) ≠ 0 → formatOk sampleEnv sampleHook (overflowEntry sampleEnv sampleHook 2) :=
    fun _ => by unfold formatOk; decide
  ⟨sampleEnv_conforms, h₁, h₂,
    push_writes_batch sampleEnv sampleHook [sampleEntry "A"] 2 emptyWorld sampleEnv_conforms h₁ h₂⟩

/-- C5: for every batch and drop count, if formatting a record of the batch (or, the records
being accepted, the overflow record) fails with an error, `push` returns that error and
the connection has received nothing: the bytes formatted before the failure stay in the
buffer, which holds the formatted records before the failing one and what the serialiser
wrote for the failing one, nothing of the later ones. The round of `loop` that made the
call goes on with the variables left by the exchange of the slots (`count = 0`,
`dropped = 0`, the other slot active) and with the channel as it was: the error is dropped,
the batch is not pushed again and its records are not put back. -/
theorem push_format_failure (env : Env) (hook : syslogHook) (rs : List Entry) (dropped : Int)
    (er : Error) (s : Shipper) (hf : FormatFails env hook rs dropped er) :
    ∃ w₁, push env hook (rs.map some) dropped s.world = .returned (some er) w₁ ∧
      w₁.written = s.world.written ∧
      (∀ pre bad post, rs = pre ++ bad :: post → (∀ e ∈ pre, formatOk env hook e) →
        ¬ formatOk env hook bad →
        w₁.b = concatFormatted env hook pre ++ formatted env hook bad) ∧
      (∀ v₁, onTick s.vars = some (v₁, ⟨rs.map some, dropped⟩) →
        roundTick env hook s = .continued ⟨s.ch, v₁, w₁⟩ ∧
        v₁.count = 0 ∧ v₁.dropped = 0 ∧ v₁.entrys = s.vars.entriesBeingPushed) := by
  have hpush : ∃ w₁, push env hook (rs.map some) dropped s.world = .returned (some er) w₁ ∧
      w₁.written = s.world.written := by
    rcases hf with ⟨pre, bad, post, rfl, hpre, hbad⟩ | ⟨hrs, hd, hbad⟩
    · exact ⟨_, push_fail_entry env hook pre post bad er dropped s.world hpre hbad, rfl⟩
    · exact ⟨_, push_fail_overflow env hook rs er dropped s.world hrs hd hbad, rfl⟩
  obtain ⟨w₁, hw₁, hwritten⟩ := hpush
  refine ⟨w₁, hw₁, hwritten, ?_, ?_⟩
  · intro pre bad post hrs hpre hbad
    subst hrs
    cases hb : (env.WriteTo (msgFromEntry bad hook.additionalParams)).2 with
    | none => exact absurd hb hbad
    | some er₁ =>
      rw [push_fail_entry env hook pre post bad er₁ dropped s.world hpre hb] at hw₁
      injection hw₁ with _ hst
      rw [← hst]
  · intro v₁ hv
    have hvars : v₁ = ⟨s.vars.entriesBeingPushed, s.vars.entrys, 0, 0⟩ := by
      simp only [onTick] at hv
      split at hv
      · injection hv with hv
        injection hv with hv _
        exact hv.symm
      · exact absurd hv (by simp)
    refine ⟨?_, by rw [hvars], by rw [hvars], by rw [hvars]⟩
    simp [roundTick, hv, hw₁, afterPush]

/-- C5, evaluated: the batch A, bad (a record the sample serialiser rejects) fails; nothing
is written and the loop goes on with an empty count and the queue untouched. -/
theorem push_format_failure_witness :
    FormatFails sampleEnv sampleHook [sampleEntry "A", badEntry] 0 "invalid value" ∧
    push sampleEnv sampleHook ([sampleEntry "A", badEntry].map some) 0 sampleShipper.world =
      .returned (some "invalid value")
        ⟨formatted sampleEnv sampleHook (sampleEntry "A"), [[1]]⟩ ∧
    roundTick sampleEnv sampleHook sampleShipper =
      .continued ⟨⟨[sampleEntry "Q"], false⟩,
        ⟨[none, none], [some (sampleEntry "A"), some badEntry], 0, 0⟩,
        ⟨formatted sampleEnv sampleHook (sampleEntry "A"), [[1]]⟩⟩ := by
  have hf : FormatFails sampleEnv sampleHook [sampleEntry "A", badEntry] 0 "invalid value" :=
    Or.inl ⟨[sampleEntry "A"], badEntry, [], rfl,
      by intro e he; rw [List.mem_singleton] at he; subst he; unfold formatOk; decide,
      by decide⟩
  obtain ⟨w₁, hpush, _, hb, hround⟩ :=
    push_format_failure sampleEnv sampleHook [sampleEntry "A", badEntry] 0 "invalid value"
      sampleShipper hf
  have hw₁ : w₁ = ⟨formatted sampleEnv sampleHook (sampleEntry "A"), [[1]]⟩ := by
    have h := hpush
    rw [show push sampleEnv sampleHook ([sampleEntry "A", badEntry].map some) 0
        sampleShipper.world = .returned (some "invalid value")
          ⟨formatted sampleEnv sampleHook (sampleEntry "A"), [[1]]⟩ from by decide] at h
    injection h with _ h
    exact h.symm
  refine ⟨hf, by rw [hpush, hw₁], ?_⟩
  rw [(hround ⟨[none, none], [some (sampleEntry "A"), some badEntry], 0, 0⟩ (by decide)).1, hw₁]
  rfl

/-! ## The messages -/

/-- C7 (as stated) fails: the text of the overflow message does not state the number of
dropped records. With capacity 2 and a period of one second, the text for 7 dropped
records is the text for 8 dropped records, and it names only the capacity and the period. -/
theorem overflow_message_counterexample :
    (msgFromEntry (overflowEntry sampleEnv sampleHook 7) sampleHook.additionalParams).Message =
      "k6 dropped some packages because they were above the limit of 2/1s" ∧
    (msgFromEntry (overflowEntry sampleEnv sampleHook 7) sampleHook.additionalParams).Message =
      (msgFromEntry (overflowEntry sampleEnv sampleHook 8) sampleHook.additionalParams).Message := by
  refine ⟨by decide, by decide⟩

/-- C7 (amended): for every drop count `d > 0`, capacity and period, the overflow message
that `push` appends (the last message of the bytes it hands to the connection) comes from
a record of level warning, so its `level` parameter is `warning`; its text states the
configured capacity and period, and is the same whatever the number of dropped records; and
between the `level` parameter and the static parameters it has exactly one parameter,
`droppedCount`, whose value is the decimal form of `d`. -/
theorem overflow_message (env : Env) (hook : syslogHook) (d : Int) (w : World) (hd : 0 < d)
    (hc : env.Conforms) (hok : formatOk env hook (overflowEntry env hook d)) :
    (overflowEntry env hook d).Level = WarnLevel ∧
    (msgFromEntry (overflowEntry env hook d) hook.additionalParams).StructuredData =
      [⟨"k6", [⟨"level", "warning"⟩, ⟨"droppedCount", toString d⟩] ++
        hook.additionalParams.map (fun p => (⟨p.1, p.2⟩ : SDParam))⟩] ∧
    (msgFromEntry (overflowEntry env hook d) hook.additionalParams).Message =
      "k6 dropped some packages because they were above the limit of " ++
        toString hook.limit ++ "/" ++ env.DurationString hook.pushPeriod ∧
    (∀ d₁ : Int, (msgFromEntry (overflowEntry env hook d₁) hook.additionalParams).Message =
      (msgFromEntry (overflowEntry env hook d) hook.additionalParams).Message) ∧
    ∃ err w₁, push env hook [] d w = .returned err w₁ ∧
      w₁.written = sinkAfter w.written
        (env.WriteTo (msgFromEntry (overflowEntry env hook d) hook.additionalParams)).1 := by
  refine ⟨rfl, ?_, rfl, fun _ => rfl, ?_⟩
  · rw [msgFromEntry_structuredData]
    simp [overflowEntry, Sprint, WarnLevel, Level.String]
  · have hd0 : d ≠ 0 := by omega
    obtain ⟨err, w₁, hpush, hw⟩ :=
      push_ok_written env hook [] d w hc (fun _ h => absurd h (List.not_mem_nil _)) (fun _ => hok)
    refine ⟨err, w₁, by simpa using hpush, ?_⟩
    rw [hw, batchBytes_eq]
    simp [hd0, concatFormatted, formatted]

/-- C7 (amended), evaluated for two dropped records. -/
theorem overflow_message_witness :
    (0 : Int) < 2 ∧ sampleEnv.Conforms ∧
    formatOk sampleEnv sampleHook (overflowEntry sampleEnv sampleHook 2) ∧
    (msgFromEntry (overflowEntry sampleEnv sampleHook 2) sampleHook.additionalParams).StructuredData =
      [⟨"k6", [⟨"level", "warning"⟩, ⟨"droppedCount", "2"⟩]⟩] := by
  have hok : formatOk sampleEnv sampleHook (overflowEntry sampleEnv sampleHook 2) := by
    unfold formatOk; decide
  obtain ⟨_, hp, _⟩ :=
    overflow_message sampleEnv sampleHook 2 emptyWorld (by decide) sampleEnv_conforms hok
  exact ⟨by decide, sampleEnv_conforms, hok, by rw [hp]; decide⟩

/-- C8: for every record and every static parameter list, the message built by
`msgFromEntry` has one structured-data element, with ID `k6`, whose parameters are: first
`level`, with the string form of the level of the record; then one parameter per field of
the record, in the order the field map is traversed, named as the field and holding its
printed value; then one parameter per static parameter, in the configured order. Their
number is 1 + the number of fields + the number of static parameters; the body is the
message text of the record and the timestamp its time. -/
theorem msgFromEntry_parameters (entry : Entry) (additionalParams : List (String × String)) :
    (msgFromEntry entry additionalParams).StructuredData =
      [⟨"k6", [(⟨"level", entry.Level.String⟩ : SDParam)] ++
        entry.Data.map (fun nv => (⟨nv.1, Sprint nv.2⟩ : SDParam)) ++
        additionalParams.map (fun p => (⟨p.1, p.2⟩ : SDParam))⟩] ∧
    (∀ sd ∈ (msgFromEntry entry additionalParams).StructuredData,
      sd.ID = "k6" ∧ sd.Parameters.length = 1 + entry.Data.length + additionalParams.length) ∧
    (msgFromEntry entry additionalParams).Message = entry.Message ∧
    (msgFromEntry entry additionalParams).Timestamp = entry.Time := by
  refine ⟨?_, ?_, rfl, rfl⟩
  · rw [msgFromEntry_structuredData]
    simp
  · intro sd hsd
    rw [msgFromEntry_structuredData, List.mem_singleton] at hsd
    subst hsd
    simp
    omega

/-- C9 (as stated) fails: the record with the fields `a` and `b` is formatted to different
bytes when its field map is traversed in the two possible orders. -/
theorem formatting_deterministic_counterexample :
    SameRecord twoFields twoFieldsSwapped ∧
    msgFromEntry twoFields [] ≠ msgFromEntry twoFieldsSwapped [] ∧
    sampleEnv.WriteTo (msgFromEntry twoFields []) ≠
      sampleEnv.WriteTo (msgFromEntry twoFieldsSwapped []) := by
  refine ⟨⟨rfl, rfl, rfl, List.Perm.swap _ _ _⟩, by decide, by decide⟩

/-- C9 (amended): for every record and every static parameter list, two formattings of the
same record give messages that agree in everything but the order of the parameters that
come from the fields of the record: these are a permutation of each other, between the same
`level` parameter and the same static parameters. The bytes are identical when the record
has at most one field, and when the field map is traversed in the same order. -/
theorem formatting_deterministic (env : Env) (e₁ e₂ : Entry)
    (additionalParams : List (String × String)) (h : SameRecord e₁ e₂) :
    (∃ f₁ f₂ : List SDParam, f₁.Perm f₂ ∧
      msgFromEntry e₁ additionalParams =
        ⟨Daemon ||| Info, e₁.Time, "", "", "", "",
          [⟨"k6", [(⟨"level", e₁.Level.String⟩ : SDParam)] ++ f₁ ++
            additionalParams.map (fun p => (⟨p.1, p.2⟩ : SDParam))⟩], e₁.Message⟩ ∧
      msgFromEntry e₂ additionalParams =
        ⟨Daemon ||| Info, e₁.Time, "", "", "", "",
          [⟨"k6", [(⟨"level", e₁.Level.String⟩ : SDParam)] ++ f₂ ++
            additionalParams.map (fun p => (⟨p.1, p.2⟩ : SDParam))⟩], e₁.Message⟩) ∧
    (e₁.Data.length ≤ 1 →
      env.WriteTo (msgFromEntry e₁ additionalParams) =
        env.WriteTo (msgFromEntry e₂ additionalParams)) ∧
    (e₁.Data = e₂.Data →
      env.WriteTo (msgFromEntry e₁ additionalParams) =
        env.WriteTo (msgFromEntry e₂ additionalParams)) := by
  obtain ⟨ht, hlv, hm, hp⟩ := h
  have hmsg : ∀ e : Entry, msgFromEntry e additionalParams =
      ⟨Daemon ||| Info, e.Time, "", "", "", "",
        [⟨"k6", [(⟨"level", e.Level.String⟩ : SDParam)] ++
          e.Data.map (fun nv => (⟨nv.1, Sprint nv.2⟩ : SDParam)) ++
          additionalParams.map (fun p => (⟨p.1, p.2⟩ : SDParam))⟩], e.Message⟩ := by
    intro e
    have hsd : (msgFromEntry e additionalParams).StructuredData =
        [⟨"k6", [(⟨"level", e.Level.String⟩ : SDParam)] ++
          e.Data.map (fun nv => (⟨nv.1, Sprint nv.2⟩ : SDParam)) ++
          additionalParams.map (fun p => (⟨p.1, p.2⟩ : SDParam))⟩] := by
      rw [msgFromEntry_structuredData]
      simp
    have hrest : msgFromEntry e additionalParams =
        ⟨Daemon ||| Info, e.Time, "", "", "", "",
          (msgFromEntry e additionalParams).StructuredData, e.Message⟩ := rfl
    rw [hrest, hsd]
  have hsame : e₁.Data = e₂.Data → e₁ = e₂ := by
    intro hd
    cases e₁
    cases e₂
    simp_all
  refine ⟨⟨_, _, hp.map _, hmsg e₁, ?_⟩, ?_, ?_⟩
  · rw [hmsg e₂, ht, hlv, hm]
  · intro hlen
    have hd : e₁.Data = e₂.Data := by
      match hd₁ : e₁.Data, hlen with
      | [], _ =>
        rw [hd₁] at hp
        exact (List.nil_perm.mp hp).symm ▸ rfl
      | [x], _ =>
        rw [hd₁] at hp
        exact (List.singleton_perm.mp hp).symm ▸ rfl
      | _ :: _ :: _, hlen => simp at hlen
    rw [hsame hd]
  · intro hd
    rw [hsame hd]

/-- C9 (amended), evaluated on the record with two fields traversed in both orders. -/
theorem formatting_deterministic_witness :
    SameRecord twoFields twoFieldsSwapped ∧
    ∃ f₁ f₂ : List SDParam, f₁.Perm f₂ ∧
      msgFromEntry twoFields [("tag", "v")] =
        ⟨Daemon ||| Info, twoFields.Time, "", "", "", "",
          [⟨"k6", [(⟨"level", twoFields.Level.String⟩ : SDParam)] ++ f₁ ++
            [("tag", "v")].map (fun p => (⟨p.1, p.2⟩ : SDParam))⟩], twoFields.Message⟩ ∧
      msgFromEntry twoFieldsSwapped [("tag", "v")] =
        ⟨Daemon ||| Info, twoFields.Time, "", "", "", "",
          [⟨"k6", [(⟨"level", twoFields.Level.String⟩ : SDParam)] ++ f₂ ++
            [("tag", "v")].map (fun p => (⟨p.1, p.2⟩ : SDParam))⟩], twoFields.Message⟩ :=
  have h : SameRecord twoFields twoFieldsSwapped := ⟨rfl, rfl, rfl, List.Perm.swap _ _ _⟩
  ⟨h, (formatting_deterministic sampleEnv twoFields twoFieldsSwapped [("tag", "v")] h).1⟩

/-! ## `Fire` and the ingest channel -/

theorem recvN_queue (q : List Entry) (closed : Bool) :
    recvN q.length ⟨q, closed⟩ = q := by
  induction q with
  | nil => rfl
  | cons e q ih => simp [recvN, recv, ih]

theorem fireAll_enqueues (es : List Entry) :
    ∀ s : Shipper, s.ch.closed = false → s.ch.queue.length + es.length ≤ chCap →
      fireAll s es = .returned none ⟨⟨s.ch.queue ++ es, false⟩, s.vars, s.world⟩ := by
  induction es with
  | nil =>
    intro s hopen _
    cases s with
    | mk ch vars world =>
      cases ch with
      | mk queue closed =>
        simp only at hopen
        simp [fireAll, hopen]
  | cons e es ih =>
    intro s hopen hroom
    have hlt : s.ch.queue.length < chCap := by
      simp only [List.length_cons] at hroom
      omega
    have hnext := ih ⟨⟨s.ch.queue ++ [e], false⟩, s.vars, s.world⟩ rfl (by
      show (s.ch.queue ++ [e]).length + es.length ≤ chCap
      simp only [List.length_append, List.length_cons, List.length_nil] at hroom ⊢
      omega)
    simp only [fireAll, Fire, hopen, hlt, if_true, Bool.false_eq_true, if_false]
    simpa using hnext

/-- C10 (as stated) fails in two states of the hook: when the channel holds 1000 records
`Fire` does not return (the send blocks), and when the channel is closed `Fire` panics. -/
theorem Fire_counterexample :
    Fire fullShipper (sampleEntry "B") = .blocked ∧
    Fire closedShipper (sampleEntry "B") = .panicked := by
  refine ⟨?_, rfl⟩
  simp [Fire, fullShipper, chCap]

/-- C10 (amended): for every record and every state of the hook, whatever the connection
or earlier pushes did, `Fire` never returns an error; when the channel is open and holds
fewer than 1000 records it returns `nil` at once and its only effect is to append the
record at the tail of the channel; a sequence of such calls appends its records in the
order of the calls, and the accumulator receives the queued records oldest first, so in the
order `Fire` was called. -/
theorem Fire_enqueues (s : Shipper) (entry : Entry) :
    (∀ err st, Fire s entry ≠ .returned (some err) st) ∧
    (s.ch.closed = false → s.ch.queue.length < chCap →
      Fire s entry = .returned none ⟨⟨s.ch.queue ++ [entry], false⟩, s.vars, s.world⟩) ∧
    (∀ es : List Entry, s.ch.closed = false → s.ch.queue.length + es.length ≤ chCap →
      fireAll s es = .returned none ⟨⟨s.ch.queue ++ es, false⟩, s.vars, s.world⟩ ∧
      recvN (s.ch.queue ++ es).length ⟨s.ch.queue ++ es, false⟩ = s.ch.queue ++ es) := by
  refine ⟨?_, ?_, ?_⟩
  · intro err st h
    unfold Fire at h
    split at h
    · exact absurd h (by simp)
    · split at h
      · injection h with h _
        exact absurd h (by simp)
      · exact absurd h (by simp)
  · intro hopen hroom
    simp [Fire, hopen, hroom]
  · intro es hopen hroom
    exact ⟨fireAll_enqueues es s hopen hroom, recvN_queue _ _⟩

/-- C10 (amended), evaluated: three calls of `Fire` on a hook with one queued record. -/
theorem Fire_enqueues_witness :
    sampleShipper.ch.closed = false ∧ sampleShipper.ch.queue.length < chCap ∧
    Fire sampleShipper (sampleEntry "R") =
      .returned none ⟨⟨[sampleEntry "Q", sampleEntry "R"], false⟩, sampleShipper.vars,
        sampleShipper.world⟩ ∧
    recvN 3 ⟨[sampleEntry "Q", sampleEntry "R", sampleEntry "S"], false⟩ =
      [sampleEntry "Q", sampleEntry "R", sampleEntry "S"] := by
  have h := Fire_enqueues sampleShipper (sampleEntry "R")
  have hopen : sampleShipper.ch.closed = false := rfl
  have hroom : sampleShipper.ch.queue.length < chCap := by decide
  refine ⟨hopen, hroom, h.2.1 hopen hroom, ?_⟩
  exact (h.2.2 [sampleEntry "R", sampleEntry "S"] hopen (by decide)).2

/-! ## The empty push and the shared buffer -/

/-- C14 (as stated) fails: on a connection where every write fails, `push` of an empty
batch with `dropped = 0` returns `nil` and the connection has received no write, while the
push of one record on the same connection does write and returns the error of that write.
So the empty push performs no write, and what it returns is not the result of a write. -/
theorem push_empty_counterexample :
    push brokenEnv sampleHook [] 0 ⟨[], [[1]]⟩ = .returned none ⟨[], [[1]]⟩ ∧
    push brokenEnv sampleHook [some (sampleEntry "A")] 0 ⟨[], [[1]]⟩ =
      .returned (some "broken pipe")
        ⟨formatted brokenEnv sampleHook (sampleEntry "A"),
          [[1], formatted brokenEnv sampleHook (sampleEntry "A")]⟩ := by
  refine ⟨by decide, by decide⟩

/-- C14 (amended): for an interval in which no record arrived and nothing was dropped,
`push` formats no message (the batch stands for no message and the serialiser plays no
part in the result), performs no write on the connection, leaves the buffer empty and
returns `nil`, whatever the connection would answer to a write. -/
theorem push_empty (env : Env) (hook : syslogHook) (w : World) :
    push env hook [] 0 w = .returned none ⟨[], w.written⟩ ∧
    batchMessages env hook [] 0 = [] ∧
    ∀ env₁ : Env, push env₁ hook [] 0 w = push env hook [] 0 w := by
  have h : ∀ env₂ : Env, push env₂ hook [] 0 w = .returned none ⟨[], w.written⟩ := by
    intro env₂
    simp [push, pushEntries, bufferReset, bufferWriteTo]
  exact ⟨h env, by simp [batchMessages], fun env₁ => by rw [h env₁, h env]⟩

/-- C15: the bytes a push writes depend only on its own batch, its drop count and the
configuration: whatever bytes the buffer `b` holds when `push` is called, also after any
sequence of earlier pushes, some of which may have failed part-way through formatting and
left bytes in `b`, the call does exactly what it does on an empty buffer (same result, same
write to the connection). -/
theorem push_buffer_independent (env : Env) (hook : syslogHook)
    (entrys : List (Option Entry)) (dropped : Int) :
    (∀ (b : Bytes) (written : List Bytes),
      push env hook entrys dropped ⟨b, written⟩ = push env hook entrys dropped ⟨[], written⟩) ∧
    (∀ (earlier : List PushCall) (w₀ w : World), pushAll env hook w₀ earlier = some w →
      push env hook entrys dropped w = push env hook entrys dropped ⟨[], w.written⟩) := by
  have h : ∀ (b : Bytes) (written : List Bytes),
      push env hook entrys dropped ⟨b, written⟩ = push env hook entrys dropped ⟨[], written⟩ :=
    fun _ _ => rfl
  exact ⟨h, fun _ _ w _ => h w.b w.written⟩

/-- C15, evaluated: a push that fails on its second record leaves the bytes of the first in
the buffer; the next push writes only its own record. -/
theorem push_buffer_independent_witness :
    pushAll sampleEnv sampleHook emptyWorld [⟨[some (sampleEntry "A"), some badEntry], 0⟩] =
      some ⟨formatted sampleEnv sampleHook (sampleEntry "A"), []⟩ ∧
    push sampleEnv sampleHook [some (sampleEntry "B")] 0
        ⟨formatted sampleEnv sampleHook (sampleEntry "A"), []⟩ =
      .returned none ⟨[], [formatted sampleEnv sampleHook (sampleEntry "B")]⟩ := by
  have h := (push_buffer_independent sampleEnv sampleHook [some (sampleEntry "B")] 0).2
    [⟨[some (sampleEntry "A"), some badEntry], 0⟩] emptyWorld
    ⟨formatted sampleEnv sampleHook (sampleEntry "A"), []⟩ (by decide)
  exact ⟨by decide, by rw [h]; decide⟩

/-- C16: for every capacity `limit ≥ 0` and every sequence of record arrivals and ticks,
`loop` runs without a panic, and in the state it reaches the next store and the next slice
are in range: `0 ≤ count ≤ limit`, both slots have `limit` places, a record that arrives
with `count ≠ limit` is stored at an index `count < limit`, and the slice
`entriesBeingPushed[:oldCount]` of a tick has `0 ≤ oldCount ≤ limit`. With `limit = 0` both
slots are empty and stay so, `count` stays 0, every record that arrives adds 1 to the drop
counter, and every push gets an empty batch. -/
theorem loop_in_range (hook : syslogHook) (evs : List Event) (hl : 0 ≤ hook.limit) :
    ∃ s calls, loop hook evs = some (s, calls) ∧
      0 ≤ s.count ∧ s.count ≤ hook.limit ∧
      (s.entrys.length : Int) = hook.limit ∧ (s.entriesBeingPushed.length : Int) = hook.limit ∧
      (s.count ≠ hook.limit → s.count < s.entrys.length) ∧
      (∀ e : Entry, ∃ s₁, onEntry hook s e = some s₁) ∧
      (∃ s₁ call, onTick s = some (s₁, call) ∧ (call.entrys.length : Int) = s.count) ∧
      (hook.limit = 0 →
        s.entrys = [] ∧ s.entriesBeingPushed = [] ∧ s.count = 0 ∧
        (∀ c ∈ calls, c.entrys = []) ∧
        ∀ e : Entry, onEntry hook s e = some ⟨[], [], s.dropped + 1, 0⟩) := by
  obtain ⟨s, hs, hh⟩ := loop_holds hook hl evs
  obtain ⟨h1, h2, h3, h4, h5⟩ := hh
  have hc0 : 0 ≤ s.count := by rw [h3]; omega
  have hcl : s.count ≤ hook.limit := by rw [h3]; omega
  have hlen : (s.entrys.length : Int) = hook.limit := by rw [h1]; omega
  have hlen₂ : (s.entriesBeingPushed.length : Int) = hook.limit := by rw [h2]; omega
  refine ⟨s, _, hs, hc0, hcl, hlen, hlen₂, fun hne => by omega, ?_, ?_, ?_⟩
  · intro e
    obtain ⟨s₁, hs₁, _⟩ := onEntry_holds hook hl s _ e ⟨h1, h2, h3, h4, h5⟩
    exact ⟨s₁, hs₁⟩
  · obtain ⟨s₁, hs₁, _⟩ := onTick_holds hook hl s _ ⟨h1, h2, h3, h4, h5⟩
    refine ⟨s₁, _, hs₁, ?_⟩
    simp only [pushOf, List.length_map, List.length_take]
    rw [h3]
    congr 1
    omega
  · intro h0
    have hL : hook.limit.toNat = 0 := by omega
    have he : s.entrys = [] := List.length_eq_zero.mp (by omega)
    have hp : s.entriesBeingPushed = [] := List.length_eq_zero.mp (by omega)
    have hcount : s.count = 0 := by omega
    refine ⟨he, hp, hcount, ?_, ?_⟩
    · intro c hc
      rw [List.mem_map] at hc
      obtain ⟨rs, _, rfl⟩ := hc
      simp [pushOf, hL]
    · intro e
      simp [onEntry, hcount, h0, he, hp]

/-- C16, evaluated: with capacity 0, the run A, tick, B, C drops every record and pushes
an empty batch. -/
theorem loop_in_range_witness :
    (0 : Int) ≤ zeroHook.limit ∧
    loop zeroHook [.entry (sampleEntry "A"), .tick, .entry (sampleEntry "B"),
      .entry (sampleEntry "C")] = some (⟨[], [], 2, 0⟩, [⟨[], 1⟩]) ∧
    ∃ s calls, loop zeroHook [.entry (sampleEntry "A"), .tick, .entry (sampleEntry "B"),
        .entry (sampleEntry "C")] = some (s, calls) ∧ s.count = 0 ∧
      ∀ c ∈ calls, c.entrys = [] := by
  obtain ⟨s, calls, hs, _, _, _, _, _, _, _, h0⟩ :=
    loop_in_range zeroHook [.entry (sampleEntry "A"), .tick, .entry (sampleEntry "B"),
      .entry (sampleEntry "C")] (by decide)
  exact ⟨by decide, by decide, s, calls, hs, (h0 rfl).2.2.1, (h0 rfl).2.2.2.1⟩

/-- C17: for every record, whatever its level, the message built by `msgFromEntry` has the
priority `rfc5424.Daemon | rfc5424.Info`, that is 30: facility 3 (daemon) and severity 6
(informational); this holds for the overflow record, of level warning, too. The level of
the record only shows in the value of the `level` parameter: changing the level of a record
changes nothing in its message but that value. -/
theorem msgFromEntry_priority (env : Env) (hook : syslogHook) (entry : Entry)
    (additionalParams : List (String × String)) (level : Level) (dropped : Int) :
    (msgFromEntry entry additionalParams).Priority = Daemon ||| Info ∧
    Daemon ||| Info = 30 ∧ (Daemon ||| Info) / 8 = 3 ∧ (Daemon ||| Info) % 8 = 6 ∧
    (msgFromEntry (overflowEntry env hook dropped) additionalParams).Priority = 30 ∧
    msgFromEntry ⟨entry.Data, entry.Time, level, entry.Message⟩ additionalParams =
      ⟨(msgFromEntry entry additionalParams).Priority,
        (msgFromEntry entry additionalParams).Timestamp,
        (msgFromEntry entry additionalParams).Hostname,
        (msgFromEntry entry additionalParams).AppName,
        (msgFromEntry entry additionalParams).ProcessID,
        (msgFromEntry entry additionalParams).MessageID,
        [⟨"k6", [(⟨"level", level.String⟩ : SDParam)] ++
          entry.Data.map (fun nv => (⟨nv.1, Sprint nv.2⟩ : SDParam)) ++
          additionalParams.map (fun p => (⟨p.1, p.2⟩ : SDParam))⟩],
        (msgFromEntry entry additionalParams).Message⟩ := by
  refine ⟨rfl, by decide, by decide, by decide, (by decide : Daemon ||| Info = 30), ?_⟩
  have hsd := msgFromEntry_structuredData ⟨entry.Data, entry.Time, level, entry.Message⟩
    additionalParams
  have hrest : msgFromEntry ⟨entry.Data, entry.Time, level, entry.Message⟩ additionalParams =
      ⟨Daemon ||| Info, entry.Time, "", "", "", "",
        (msgFromEntry ⟨entry.Data, entry.Time, level, entry.Message⟩
          additionalParams).StructuredData, entry.Message⟩ := rfl
  rw [hrest, hsd]
  simp [msgFromEntry]

/-! ## Shutdown -/

theorem pushEntries_returns (env : Env) (ps : List (String × String)) (rs : List Entry) :
    ∀ w : World, ∃ err w₁, pushEntries env ps (rs.map some) w = .returned err w₁ := by
  induction rs with
  | nil => intro w; exact ⟨none, w, rfl⟩
  | cons e rs ih =>
    intro w
    simp only [List.map_cons, pushEntries, writeMsg]
    cases he : (env.WriteTo (msgFromEntry e ps)).2 with
    | some er => exact ⟨_, _, rfl⟩
    | none => exact ih _

theorem push_returns (env : Env) (hook : syslogHook) (hc : env.Conforms) (rs : List Entry)
    (dropped : Int) (w : World) :
    ∃ err w₁, push env hook (rs.map some) dropped w = .returned err w₁ := by
  unfold push
  obtain ⟨err, w₁, h⟩ := pushEntries_returns env hook.additionalParams rs (bufferReset w)
  rw [h]
  cases err with
  | some er => exact ⟨_, _, rfl⟩
  | none =>
    by_cases hd : dropped = 0
    · simp only [hd, ne_eq, not_true_eq_false, if_false]
      obtain ⟨err₂, w₂, h₂, _⟩ := bufferWriteTo_returns env hc w₁
      exact ⟨err₂, w₂, h₂⟩
    · simp only [hd, ne_eq, not_false_eq_true, if_true, writeMsg]
      cases ho : (env.WriteTo (msgFromEntry (overflowEntry env hook dropped)
          hook.additionalParams)).2 with
      | some er => exact ⟨_, _, rfl⟩
      | none =>
        obtain ⟨err₂, w₂, h₂, _⟩ := bufferWriteTo_returns env hc
          ⟨w₁.b ++ (env.WriteTo (msgFromEntry (overflowEntry env hook dropped)
            hook.additionalParams)).1, w₁.written⟩
        exact ⟨err₂, w₂, h₂⟩

theorem roundRecv_closed (hook : syslogHook) (s : Shipper) (hq : s.ch.queue = [])
    (hclosed : s.ch.closed = true) : roundRecv hook s = .returned s := by
  simp [roundRecv, recv, hq, hclosed]

theorem roundTick_spec (env : Env) (hook : syslogHook) (hl : 0 ≤ hook.limit)
    (hc : env.Conforms) (s : Shipper) (cur : List Entry) (h : Holds hook s.vars cur) :
    ∃ v₁ call w₁, onTick s.vars = some (v₁, call) ∧
      afterPush (push env hook call.entrys call.dropped s.world) = some w₁ ∧
      roundTick env hook s = .continued ⟨s.ch, v₁, w₁⟩ ∧ Holds hook v₁ [] := by
  obtain ⟨v₁, hv, hh, _⟩ := onTick_holds hook hl s.vars cur h
  obtain ⟨err, w₁, hp⟩ := push_returns env hook hc (cur.take hook.limit.toNat)
    (pushOf hook cur).dropped s.world
  have hp₁ : push env hook (pushOf hook cur).entrys (pushOf hook cur).dropped s.world =
      .returned err w₁ := hp
  exact ⟨v₁, pushOf hook cur, w₁, hv, by rw [hp₁]; rfl,
    by simp [roundTick, hv, hp₁, afterPush], hh⟩

theorem roundRecv_spec (hook : syslogHook) (hl : 0 ≤ hook.limit) (s : Shipper)
    (cur : List Entry) (e : Entry) (q : List Entry) (h : Holds hook s.vars cur)
    (hq : s.ch.queue = e :: q) :
    ∃ v₁, onEntry hook s.vars e = some v₁ ∧
      roundRecv hook s = .continued ⟨⟨q, s.ch.closed⟩, v₁, s.world⟩ ∧
      Holds hook v₁ (cur ++ [e]) := by
  obtain ⟨v₁, hv, hh, _⟩ := onEntry_holds hook hl s.vars cur e h
  exact ⟨v₁, hv, by simp [roundRecv, recv, hq, hv], hh⟩

theorem rounds_closed (env : Env) (hook : syslogHook) (hl : 0 ≤ hook.limit)
    (hc : env.Conforms) (sel : List Select) :
    ∀ (s : Shipper) (cur : List Entry), Holds hook s.vars cur → s.ch.closed = true →
      ∃ st calls,
        run hook s.vars (eventsOf s.ch.queue sel) = some (st.vars, calls) ∧
        pushAll env hook s.world calls = some st.world ∧
        recordsOf (eventsOf s.ch.queue sel) = s.ch.queue.take (channelRounds sel) ∧
        (channelRounds sel ≤ s.ch.queue.length →
          rounds env hook s sel = .continued st ∧
          st.ch = ⟨s.ch.queue.drop (channelRounds sel), true⟩) ∧
        (s.ch.queue.length < channelRounds sel →
          rounds env hook s sel = .returned st ∧ st.ch = ⟨[], true⟩) := by
  induction sel with
  | nil =>
    intro s cur h hclosed
    refine ⟨s, [], by cases hq : s.ch.queue <;> rfl, rfl,
      by cases hq : s.ch.queue <;> simp [eventsOf, recordsOf, channelRounds],
      fun _ => ⟨rfl, ?_⟩, fun hlt => absurd hlt (Nat.not_lt_zero _)⟩
    cases s with
    | mk ch vars world =>
      cases ch with
      | mk queue closed =>
        simp only at hclosed
        simp [channelRounds, hclosed]
  | cons c sel ih =>
    intro s cur h hclosed
    cases c with
    | ticker =>
      obtain ⟨v₁, call, w₁, hv, hw, hst, hh⟩ := roundTick_spec env hook hl hc s cur h
      obtain ⟨st, calls, hrun, hpush, hrec, hcont, hret⟩ := ih ⟨s.ch, v₁, w₁⟩ [] hh hclosed
      refine ⟨st, call :: calls, ?_, ?_, ?_, ?_, ?_⟩
      · simp only [eventsOf, run, step, hv, Option.map_some']
        simp only at hrun
        rw [hrun]
        rfl
      · simp only [pushAll, hw]
        exact hpush
      · simpa [eventsOf, recordsOf, channelRounds] using hrec
      · intro hle
        simp only [rounds, round, hst, channelRounds]
        exact hcont hle
      · intro hlt
        simp only [rounds, round, hst, channelRounds]
        exact hret hlt
    | channel =>
      cases hq : s.ch.queue with
      | nil =>
        refine ⟨s, [], by simp [eventsOf, run], rfl, by simp [eventsOf, recordsOf],
          fun hle => ?_, fun _ => ⟨?_, ?_⟩⟩
        · simp [channelRounds] at hle
        · simp [rounds, round, roundRecv_closed hook s hq hclosed]
        · cases s with
          | mk ch vars world =>
            cases ch with
            | mk queue closed =>
              simp only at hclosed hq
              simp [hclosed, hq]
      | cons e q =>
        obtain ⟨v₁, hv, hst, hh⟩ := roundRecv_spec hook hl s cur e q h hq
        rw [hclosed] at hst
        obtain ⟨st, calls, hrun, hpush, hrec, hcont, hret⟩ :=
          ih ⟨⟨q, true⟩, v₁, s.world⟩ _ hh rfl
        simp only at hrun hpush hrec hcont hret
        refine ⟨st, calls, ?_, hpush, ?_, ?_, ?_⟩
        · simp only [eventsOf, run, step, hv, Option.map_some']
          rw [hrun]
          rfl
        · simp only [eventsOf, recordsOf, channelRounds, List.take_succ_cons, hrec]
        · intro hle
          simp only [channelRounds, List.length_cons, Nat.add_le_add_iff_right] at hle
          simp only [rounds, round, hst, channelRounds, List.drop_succ_cons]
          exact hcont hle
        · intro hlt
          simp only [channelRounds, List.length_cons, Nat.add_lt_add_iff_right] at hlt
          simp only [rounds, round, hst, channelRounds]
          exact hret hlt

/-- C11 (as stated) fails: in a state where the channel was closed while it still held the
record Q, the next channel round of the loop receives Q after the close and accumulates it:
it is stored in the active slot and `count` grows, or, when the slot is full, the drop
counter grows. -/
theorem loop_shutdown_counterexample :
    closingShipper.ch.closed = true ∧
    roundRecv sampleHook closingShipper =
      .continued ⟨⟨[], true⟩, ⟨[some (sampleEntry "Q"), none], [none, none], 0, 1⟩,
        emptyWorld⟩ ∧
    closingFullShipper.ch.closed = true ∧
    roundRecv sampleHook closingFullShipper =
      .continued ⟨⟨[], true⟩,
        ⟨[some (sampleEntry "A"), some (sampleEntry "B")], [none, none], 1, 2⟩,
        emptyWorld⟩ := by
  refine ⟨rfl, by decide, rfl, by decide⟩

/-- C11 (amended): once the channel has been closed, the loop first receives the records
that were still queued at the close, one per channel round, oldest first, and accumulates
each of them as usual: it is stored at index `count` of the active slot and `count` grows
by 1, or, when `count = limit`, only the drop counter grows by 1. The channel round that
finds the closed channel empty makes the loop return, without changing `count`, the drop
counter, either slot, the buffer or the connection; after the channel is closed and empty
no record is accumulated. So from every state with the channel closed whose variables hold
an interval (`Holds`, as in every state the loop reaches), whatever cases the rounds take
and as long as each push returns: the loop never finds a case not ready and never panics;
while its channel rounds number at most the records queued it is still running, and once
they exceed them it has returned with the channel empty; in both cases its variables are
those the accumulator reaches on the queued records taken so far (in order, all of them
once it has returned) and the ticks taken, and the buffer and connection are as the pushes
of these ticks left them. -/
theorem loop_shutdown (env : Env) (hook : syslogHook) (s : Shipper) (cur : List Entry)
    (hl : 0 ≤ hook.limit) (hc : env.Conforms) (hs : Holds hook s.vars cur)
    (hclosed : s.ch.closed = true) :
    (s.ch.queue = [] → roundRecv hook s = .returned s) ∧
    (∀ e q, s.ch.queue = e :: q →
      (s.vars.count = hook.limit →
        roundRecv hook s = .continued ⟨⟨q, true⟩,
          ⟨s.vars.entrys, s.vars.entriesBeingPushed, s.vars.dropped + 1, s.vars.count⟩,
          s.world⟩) ∧
      (s.vars.count < hook.limit →
        roundRecv hook s = .continued ⟨⟨q, true⟩,
          ⟨s.vars.entrys.set s.vars.count.toNat (some e), s.vars.entriesBeingPushed,
            s.vars.dropped, s.vars.count + 1⟩,
          s.world⟩)) ∧
    (∀ sel : List Select, ∃ st,
      rounds env hook s sel = .continued st ∨ rounds env hook s sel = .returned st) ∧
    (∀ sel : List Select, channelRounds sel ≤ s.ch.queue.length →
      ∃ st calls, rounds env hook s sel = .continued st ∧
        st.ch = ⟨s.ch.queue.drop (channelRounds sel), true⟩ ∧
        run hook s.vars (eventsOf s.ch.queue sel) = some (st.vars, calls) ∧
        pushAll env hook s.world calls = some st.world ∧
        recordsOf (eventsOf s.ch.queue sel) = s.ch.queue.take (channelRounds sel)) ∧
    (∀ sel : List Select, s.ch.queue.length < channelRounds sel →
      ∃ st calls, rounds env hook s sel = .returned st ∧ st.ch = ⟨[], true⟩ ∧
        run hook s.vars (eventsOf s.ch.queue sel) = some (st.vars, calls) ∧
        pushAll env hook s.world calls = some st.world ∧
        recordsOf (eventsOf s.ch.queue sel) = s.ch.queue) := by
  refine ⟨fun hq => roundRecv_closed hook s hq hclosed, fun e q hq => ⟨fun hfull => ?_,
    fun hlt => ?_⟩, fun sel => ?_, fun sel hle => ?_, fun sel hlt => ?_⟩
  · simp [roundRecv, recv, hq, onEntry, hfull, hclosed]
  · obtain ⟨h1, _, h3, _, _⟩ := hs
    have hne : ¬ s.vars.count = hook.limit := by omega
    have hidx : 0 ≤ s.vars.count ∧ s.vars.count < (s.vars.entrys.length : Int) := by
      constructor
      · rw [h3]; omega
      · rw [h1]; omega
    simp [roundRecv, recv, hq, onEntry, hne, hidx, hclosed]
  · obtain ⟨st, _, _, _, _, hcont, hret⟩ := rounds_closed env hook hl hc sel s cur hs hclosed
    by_cases hle : channelRounds sel ≤ s.ch.queue.length
    · exact ⟨st, Or.inl (hcont hle).1⟩
    · exact ⟨st, Or.inr (hret (Nat.lt_of_not_le hle)).1⟩
  · obtain ⟨st, calls, hrun, hpush, hrec, hcont, _⟩ :=
      rounds_closed env hook hl hc sel s cur hs hclosed
    exact ⟨st, calls, (hcont hle).1, (hcont hle).2, hrun, hpush, hrec⟩
  · obtain ⟨st, calls, hrun, hpush, hrec, _, hret⟩ :=
      rounds_closed env hook hl hc sel s cur hs hclosed
    exact ⟨st, calls, (hret hlt).1, (hret hlt).2, hrun, hpush,
      by rw [hrec, List.take_of_length_le (Nat.le_of_lt hlt)]⟩

/-- C11 (amended), evaluated: closed with Q still queued, the loop takes Q in its first
channel round, pushes it at the tick and returns at its second channel round. -/
theorem loop_shutdown_witness :
    (0 : Int) ≤ sampleHook.limit ∧ sampleEnv.Conforms ∧
    Holds sampleHook closingShipper.vars [] ∧ closingShipper.ch.closed = true ∧
    (∃ st calls, rounds sampleEnv sampleHook closingShipper [.channel, .ticker, .channel] =
        .returned st ∧ st.ch = ⟨[], true⟩ ∧
      run sampleHook closingShipper.vars
        (eventsOf closingShipper.ch.queue [.channel, .ticker, .channel]) =
        some (st.vars, calls) ∧
      pushAll sampleEnv sampleHook closingShipper.world calls = some st.world ∧
      recordsOf (eventsOf closingShipper.ch.queue [.channel, .ticker, .channel]) =
        closingShipper.ch.queue) ∧
    rounds sampleEnv sampleHook closingShipper [.channel, .ticker, .channel] =
      .returned ⟨⟨[], true⟩, ⟨[none, none], [some (sampleEntry "Q"), none], 0, 0⟩,
        ⟨[], [formatted sampleEnv sampleHook (sampleEntry "Q")]⟩⟩ := by
  have hh : Holds sampleHook closingShipper.vars [] := by
    refine ⟨rfl, rfl, rfl, rfl, rfl⟩
  have h := loop_shutdown sampleEnv sampleHook closingShipper [] (by decide)
    sampleEnv_conforms hh rfl
  exact ⟨by decide, sampleEnv_conforms, hh, rfl,
    h.2.2.2.2 [.channel, .ticker, .channel] (by decide), by decide⟩

/-! ## The two goroutines -/

theorem sysInit_inv (hook : syslogHook) (w : World) (hl : 0 ≤ hook.limit) :
    ∃ s, sysInit hook w = some s ∧ SysInv hook s := by
  refine ⟨⟨List.replicate hook.limit.toNat none, List.replicate hook.limit.toNat none,
    .first, .second, 0, 0, .selecting, .idle, w, 0, 0⟩,
    by simp only [sysInit, Int.not_lt.mpr hl, if_false], ?_⟩
  exact ⟨by simp, by simp, by simp, Int.le_refl _, hl, ⟨[], by simp⟩, rfl⟩

theorem get_put_same (s : Sys) (k : Slot) (l : List (Option Entry)) :
    (s.put k l).get k = l := by
  cases k <;> rfl

theorem get_put_other (s : Sys) (k k₁ : Slot) (l : List (Option Entry)) (h : k₁ ≠ k) :
    (s.put k l).get k₁ = s.get k₁ := by
  cases k <;> cases k₁ <;> first | rfl | exact absurd rfl h

theorem length_get (hook : syslogHook) (s : Sys) (k : Slot)
    (hf : s.first.length = hook.limit.toNat) (hsn : s.second.length = hook.limit.toNat) :
    (s.get k).length = hook.limit.toNat := by
  cases k
  · exact hf
  · exact hsn

theorem store_inv (hook : syslogHook) (s : Sys) (e : Entry) (h : SysInv hook s)
    (hlt : s.count < hook.limit) :
    SysInv hook { s.put s.entrys ((s.get s.entrys).set s.count.toNat (some e)) with
      count := s.count + 1 } := by
  obtain ⟨hne, hf, hsn, hc0, hcl, ⟨rs, hrs⟩, hp⟩ := h
  have hlen := length_get hook s s.entrys hf hsn
  have hidx : s.count.toNat < (s.get s.entrys).length := by omega
  have hcnt : (s.count + 1).toNat = s.count.toNat + 1 := by omega
  obtain ⟨first, second, entrys, ebp, dropped, count, acc, pusher, world, started, ended⟩ := s
  simp only at hne hf hsn hc0 hcl hrs hp hlen hidx hcnt hlt
  cases entrys <;> cases ebp
  · exact absurd rfl hne
  · simp only [Sys.get, Sys.put] at hrs hidx hlen ⊢
    refine ⟨hne, by simpa using hf, hsn, by dsimp only; omega, by dsimp only; omega,
      ⟨rs ++ [e], by simp only [Sys.get]; rw [hcnt, take_succ_set _ _ _ hidx, hrs]; simp⟩, ?_⟩
    cases pusher with
    | idle => exact hp
    | released oc od => exact hp
    | pushing k n d =>
      obtain ⟨h1, h2, h3⟩ := hp
      subst h2
      exact ⟨h1, rfl, h3⟩
  · simp only [Sys.get, Sys.put] at hrs hidx hlen ⊢
    refine ⟨hne, hf, by simpa using hsn, by dsimp only; omega, by dsimp only; omega,
      ⟨rs ++ [e], by simp only [Sys.get]; rw [hcnt, take_succ_set _ _ _ hidx, hrs]; simp⟩, ?_⟩
    cases pusher with
    | idle => exact hp
    | released oc od => exact hp
    | pushing k n d =>
      obtain ⟨h1, h2, h3⟩ := hp
      subst h2
      exact ⟨h1, rfl, h3⟩
  · exact absurd rfl hne

theorem sysStep_inv (env : Env) (hook : syslogHook) (s s₁ : Sys) (a : Action)
    (h : SysInv hook s) (hs : sysStep env hook s a = .next s₁) : SysInv hook s₁ := by
  cases a with
  | arrive e =>
    simp only [sysStep] at hs
    split at hs
    · exact absurd hs (by simp)
    · split at hs
      · injection hs with hs
        subst hs
        exact h
      · split at hs
        · injection hs with hs
          subst hs
          rename_i hne _
          exact store_inv hook s e h (by have := h.2.2.2.2.1; omega)
        · exact absurd hs (by simp)
  | tick =>
    simp only [sysStep] at hs
    split at hs
    · exact absurd hs (by simp)
    · injection hs with hs
      subst hs
      exact h
  | swap =>
    simp only [sysStep] at hs
    split at hs
    · injection hs with hs
      subst hs
      rename_i hacc hpu
      obtain ⟨hne, hf, hsn, hc0, hcl, hrs, hp⟩ := h
      rw [hpu] at hp
      exact ⟨fun heq => hne heq.symm, hf, hsn, Int.le_refl _, by dsimp only; omega, ⟨[], by simp⟩,
        hp, hc0, hcl, hrs⟩
    · exact absurd hs (by simp)
  | pushStart =>
    simp only [sysStep] at hs
    split at hs
    · rename_i oc od hpu
      split at hs
      · injection hs with hs
        subst hs
        obtain ⟨hne, hf, hsn, hc0, hcl, hrs, hp⟩ := h
        rw [hpu] at hp
        obtain ⟨h1, _, _, h4⟩ := hp
        exact ⟨hne, hf, hsn, hc0, hcl, hrs, by simp only [h1], rfl, h4⟩
      · exact absurd hs (by simp)
    · exact absurd hs (by simp)
  | pushEnd =>
    simp only [sysStep] at hs
    split at hs
    · rename_i k n d hpu
      split at hs
      · exact absurd hs (by simp)
      · injection hs with hs
        subst hs
        obtain ⟨hne, hf, hsn, hc0, hcl, hrs, hp⟩ := h
        rw [hpu] at hp
        exact ⟨hne, hf, hsn, hc0, hcl, hrs, hp.1⟩
    · exact absurd hs (by simp)

theorem sysRun_inv (env : Env) (hook : syslogHook) (acts : List Action) :
    ∀ s s₁ : Sys, SysInv hook s → sysRun env hook s acts = .next s₁ → SysInv hook s₁ := by
  induction acts with
  | nil =>
    intro s s₁ h hs
    injection hs with hs
    subst hs
    exact h
  | cons a acts ih =>
    intro s s₁ h hs
    simp only [sysRun] at hs
    split at hs
    · rename_i s₂ hstep
      exact ih s₂ s₁ (sysStep_inv env hook s s₂ a h hstep) hs
    · exact absurd hs (by simp)
    · exact absurd hs (by simp)

theorem runSystem_inv (env : Env) (hook : syslogHook) (acts : List Action) (s : Sys)
    (hl : 0 ≤ hook.limit) (hr : runSystem env hook acts = .next s) : SysInv hook s := by
  obtain ⟨s₀, hs₀, h₀⟩ := sysInit_inv hook emptyWorld hl
  simp only [runSystem, hs₀] at hr
  exact sysRun_inv env hook acts s₀ s h₀ hr

theorem arrive_next (env : Env) (hook : syslogHook) (s : Sys) (e : Entry) (h : SysInv hook s)
    (hacc : s.acc = .selecting) :
    ∃ s₁, sysStep env hook s (.arrive e) = .next s₁ ∧ s₁.acc = .selecting := by
  obtain ⟨_, hf, hsn, hc0, hcl, _, _⟩ := h
  have hlen := length_get hook s s.entrys hf hsn
  simp only [sysStep, hacc]
  by_cases hfull : s.count = hook.limit
  · rw [if_pos hfull]
    exact ⟨_, rfl, rfl⟩
  · have hidx : 0 ≤ s.count ∧ s.count < ((s.get s.entrys).length : Int) := ⟨hc0, by omega⟩
    rw [if_neg hfull, if_pos hidx]
    refine ⟨_, rfl, ?_⟩
    cases hk : s.entrys <;> first | rfl | exact hacc

theorem arrive_keeps_other (env : Env) (hook : syslogHook) (s s₁ : Sys) (e : Entry)
    (hne : s.entrys ≠ s.entriesBeingPushed)
    (hs : sysStep env hook s (.arrive e) = .next s₁) :
    s₁.get s.entriesBeingPushed = s.get s.entriesBeingPushed ∧
    s₁.entriesBeingPushed = s.entriesBeingPushed ∧ s₁.entrys = s.entrys ∧
    s₁.pusher = s.pusher := by
  simp only [sysStep] at hs
  split at hs
  · exact absurd hs (by simp)
  · split at hs
    · injection hs with hs
      subst hs
      exact ⟨rfl, rfl, rfl, rfl⟩
    · split at hs
      · injection hs with hs
        subst hs
        obtain ⟨first, second, entrys, ebp, dropped, count, acc, pusher, world, started, ended⟩ := s
        simp only at hne
        cases entrys <;> cases ebp
        · exact absurd rfl hne
        · exact ⟨rfl, rfl, rfl, rfl⟩
        · exact ⟨rfl, rfl, rfl, rfl⟩
        · exact absurd rfl hne
      · exact absurd hs (by simp)

/-- C12 (as stated) fails: after a tick, the exchange and the start of its push, a second
tick finds that push still in flight. In the state reached the accumulator is blocked in
`pushCh <- ch`: it can take neither a record nor a tick, and the exchange cannot happen; the
only step possible is the return of `push`, that is the end of the write to the connection,
and only after it the exchange takes place and the accumulator goes on. -/
theorem accumulator_waits_counterexample :
    ∃ s s₁ s₂, runSystem sampleEnv sampleHook
        [.arrive (sampleEntry "A"), .tick, .swap, .pushStart, .arrive (sampleEntry "B"),
          .tick] = .next s ∧
      s.acc = .sending ∧ s.pusher = .pushing .first 1 0 ∧
      (∀ e, sysStep sampleEnv sampleHook s (.arrive e) = .disabled) ∧
      sysStep sampleEnv sampleHook s .tick = .disabled ∧
      sysStep sampleEnv sampleHook s .swap = .disabled ∧
      sysStep sampleEnv sampleHook s .pushStart = .disabled ∧
      sysStep sampleEnv sampleHook s .pushEnd = .next s₁ ∧
      s₁.world.written = [formatted sampleEnv sampleHook (sampleEntry "A")] ∧
      sysStep sampleEnv sampleHook s₁ .swap = .next s₂ ∧ s₂.acc = .selecting := by
  refine ⟨⟨[some (sampleEntry "A"), none], [some (sampleEntry "B"), none], .second, .first,
      0, 1, .sending, .pushing .first 1 0, emptyWorld, 1, 0⟩,
    ⟨[some (sampleEntry "A"), none], [some (sampleEntry "B"), none], .second, .first,
      0, 1, .sending, .idle, ⟨[], [formatted sampleEnv sampleHook (sampleEntry "A")]⟩, 1, 1⟩,
    ⟨[some (sampleEntry "A"), none], [some (sampleEntry "B"), none], .first, .second,
      0, 0, .selecting, .released 1 0,
      ⟨[], [formatted sampleEnv sampleHook (sampleEntry "A")]⟩, 1, 1⟩,
    by decide, rfl, rfl, fun e => rfl, rfl, rfl, rfl, by decide, rfl, rfl, rfl⟩

/-- C12 (amended): in every state the two goroutines reach, the accumulator never waits
for the push of the batch it has just handed over: at the `select` it can take a record or
a tick whatever the push goroutine is doing, a push in flight included. At a tick it waits
for the exchange of the slots, which happens at once when the push goroutine is idle. When
the push of the previous interval has not returned yet (it is about to start or is still
writing to the connection), the accumulator stays blocked, and the exchange cannot happen,
until that push has returned. -/
theorem accumulator_waits (env : Env) (hook : syslogHook) (acts : List Action) (s : Sys)
    (hl : 0 ≤ hook.limit) (hc : env.Conforms) (hr : runSystem env hook acts = .next s) :
    (s.acc = .selecting →
      (∀ e, ∃ s₁, sysStep env hook s (.arrive e) = .next s₁ ∧ s₁.acc = .selecting) ∧
      ∃ s₁, sysStep env hook s .tick = .next s₁ ∧ s₁.acc = .sending) ∧
    (s.acc = .sending → s.pusher = .idle →
      ∃ s₁, sysStep env hook s .swap = .next s₁ ∧ s₁.acc = .selecting) ∧
    (s.acc = .sending → s.pusher ≠ .idle →
      (∀ e, sysStep env hook s (.arrive e) = .disabled) ∧
      sysStep env hook s .tick = .disabled ∧
      sysStep env hook s .swap = .disabled ∧
      ((∃ oc od, s.pusher = .released oc od ∧
          ∃ s₁ k n d, sysStep env hook s .pushStart = .next s₁ ∧
            s₁.pusher = .pushing k n d ∧ s₁.acc = .sending) ∨
        (∃ k n d, s.pusher = .pushing k n d ∧
          ∃ s₁, sysStep env hook s .pushEnd = .next s₁ ∧
            s₁.pusher = .idle ∧ s₁.acc = .sending))) := by
  have hinv := runSystem_inv env hook acts s hl hr
  refine ⟨fun hacc => ⟨fun e => arrive_next env hook s e hinv hacc, ?_⟩, ?_, ?_⟩
  · exact ⟨_, by simp only [sysStep, hacc]; rfl, rfl⟩
  · intro hacc hidle
    exact ⟨_, by simp only [sysStep, hacc, hidle]; rfl, rfl⟩
  · intro hacc hbusy
    refine ⟨fun e => by simp only [sysStep, hacc], by simp only [sysStep, hacc], ?_, ?_⟩
    · simp only [sysStep, hacc]
      split
      · rename_i hidle
        exact absurd hidle hbusy
      · rfl
    · obtain ⟨_, hf, hsn, _, _, _, hp⟩ := hinv
      cases hpu : s.pusher with
      | idle => exact absurd hpu hbusy
      | released oc od =>
        rw [hpu] at hp
        obtain ⟨_, h0, h1, _⟩ := hp
        have hlen := length_get hook s s.entriesBeingPushed hf hsn
        have hidx : 0 ≤ oc ∧ oc ≤ ((s.get s.entriesBeingPushed).length : Int) := ⟨h0, by omega⟩
        exact Or.inl ⟨oc, od, rfl,
          { s with
            pusher := .pushing s.entriesBeingPushed oc.toNat od
            started := s.started + 1 },
          s.entriesBeingPushed, oc.toNat, od,
          by simp only [sysStep, hpu, hidx, and_self, if_true], rfl, hacc⟩
      | pushing k n d =>
        rw [hpu] at hp
        obtain ⟨_, _, rs, hrs⟩ := hp
        obtain ⟨err, w₁, hpush⟩ := push_returns env hook hc rs d s.world
        exact Or.inr ⟨k, n, d, rfl,
          { s with pusher := .idle, world := w₁, ended := s.ended + 1 },
          by simp only [sysStep, hpu, hrs, hpush, afterPush], rfl, hacc⟩

/-- C12 (amended), evaluated: with a push in flight the accumulator, at the `select`,
takes the record B. -/
theorem accumulator_waits_witness :
    (0 : Int) ≤ sampleHook.limit ∧ sampleEnv.Conforms ∧
    ∃ s s₁, runSystem sampleEnv sampleHook
        [.arrive (sampleEntry "A"), .tick, .swap, .pushStart] = .next s ∧
      s.pusher = .pushing .first 1 0 ∧ s.acc = .selecting ∧
      sysStep sampleEnv sampleHook s (.arrive (sampleEntry "B")) = .next s₁ ∧
      s₁.acc = .selecting := by
  have hr : runSystem sampleEnv sampleHook
      [.arrive (sampleEntry "A"), .tick, .swap, .pushStart] =
      .next ⟨[some (sampleEntry "A"), none], [none, none], .second, .first, 0, 0, .selecting,
        .pushing .first 1 0, emptyWorld, 1, 0⟩ := by decide
  obtain ⟨s₁, hs₁, hacc⟩ :=
    ((accumulator_waits sampleEnv sampleHook _ _ (by decide) sampleEnv_conforms hr).1 rfl).1
      (sampleEntry "B")
  exact ⟨by decide, sampleEnv_conforms, _, s₁, hr, rfl, rfl, hs₁, hacc⟩

/-- C13: in every state the two goroutines reach, the array an in-flight push reads is
never the array the accumulator appends into: the variables `entrys` and
`entriesBeingPushed` refer to different arrays, a push in flight reads the array
`entriesBeingPushed`, and a record that arrives changes neither that array nor what the
push goroutine is doing. The exchange can only happen when the push goroutine is idle (no
push in flight or about to start); it exchanges the arrays the two variables refer to and
leaves the two arrays, allocated at the start, as they are. At most one push is in flight:
the pushes started exceed the pushes ended by at most one, and by one exactly when a push
is in flight. -/
theorem slots_disjoint (env : Env) (hook : syslogHook) (acts : List Action) (s : Sys)
    (hl : 0 ≤ hook.limit) (hr : runSystem env hook acts = .next s) :
    s.entrys ≠ s.entriesBeingPushed ∧
    (∀ k n d, s.pusher = .pushing k n d → k = s.entriesBeingPushed ∧ k ≠ s.entrys) ∧
    (∀ e s₁, sysStep env hook s (.arrive e) = .next s₁ →
      s₁.get s.entriesBeingPushed = s.get s.entriesBeingPushed ∧
      s₁.entriesBeingPushed = s.entriesBeingPushed ∧ s₁.entrys = s.entrys ∧
      s₁.pusher = s.pusher) ∧
    (∀ s₁, sysStep env hook s .swap = .next s₁ →
      s.pusher = .idle ∧ s₁.entrys = s.entriesBeingPushed ∧
      s₁.entriesBeingPushed = s.entrys ∧ s₁.first = s.first ∧ s₁.second = s.second) ∧
    s.started ≤ s.ended + 1 ∧
    (s.started = s.ended + 1 ↔ ∃ k n d, s.pusher = .pushing k n d) := by
  obtain ⟨hne, _, _, _, _, _, hp⟩ := runSystem_inv env hook acts s hl hr
  refine ⟨hne, ?_, fun e s₁ hs => arrive_keeps_other env hook s s₁ e hne hs, ?_, ?_, ?_⟩
  · intro k n d hpu
    rw [hpu] at hp
    exact ⟨hp.2.1, fun h => hne (h.symm.trans hp.2.1)⟩
  · intro s₁ hs
    simp only [sysStep] at hs
    split at hs
    · injection hs with hs
      subst hs
      rename_i _ hidle
      exact ⟨hidle, rfl, rfl, rfl, rfl⟩
    · exact absurd hs (by simp)
  · cases hpu : s.pusher with
    | idle => rw [hpu] at hp; omega
    | released oc od => rw [hpu] at hp; omega
    | pushing k n d => rw [hpu] at hp; omega
  · cases hpu : s.pusher with
    | idle =>
      rw [hpu] at hp
      exact ⟨fun h => by omega, fun ⟨_, _, _, h⟩ => by simp at h⟩
    | released oc od =>
      rw [hpu] at hp
      exact ⟨fun h => by omega, fun ⟨_, _, _, h⟩ => by simp at h⟩
    | pushing k n d =>
      rw [hpu] at hp
      exact ⟨fun _ => ⟨k, n, d, rfl⟩, fun _ => hp.1⟩

/-- C13, evaluated: while the push of A is in flight on the first array, the record B goes
into the second array and the first is unchanged. -/
theorem slots_disjoint_witness :
    (0 : Int) ≤ sampleHook.limit ∧
    ∃ s, runSystem sampleEnv sampleHook
        [.arrive (sampleEntry "A"), .tick, .swap, .pushStart] = .next s ∧
      s.pusher = .pushing .first 1 0 ∧ s.entrys = .second ∧
      s.entrys ≠ s.entriesBeingPushed ∧
      sysStep sampleEnv sampleHook s (.arrive (sampleEntry "B")) =
        .next ⟨[some (sampleEntry "A"), none], [some (sampleEntry "B"), none], .second,
          .first, 0, 1, .selecting, .pushing .first 1 0, emptyWorld, 1, 0⟩ := by
  have hr : runSystem sampleEnv sampleHook
      [.arrive (sampleEntry "A"), .tick, .swap, .pushStart] =
      .next ⟨[some (sampleEntry "A"), none], [none, none], .second, .first, 0, 0, .selecting,
        .pushing .first 1 0, emptyWorld, 1, 0⟩ := by decide
  have h := slots_disjoint sampleEnv sampleHook _ _ (by decide) hr
  exact ⟨by decide, _, hr, rfl, rfl, h.1, by decide⟩

end Syslog
